import Mathlib

/-!
Verification development for the svpop variant-merging library
(`svpoplib/svmerge.py`, `svpoplib/variant.py`).

The Python code operates on Pandas dataframes.  The shallow embedding
represents a dataframe as a `List` of per-row structures; column
operations become structure-field updates, `sort_values` becomes a
stable insertion sort on the corresponding key tuple, `drop_duplicates`
becomes first-occurrence deduplication, and functions that raise become
`Except String` values.  Genomic coordinates are `Int`, overlap metrics
are `ℚ` (the Python floats arising in the verified paths are exact small
rationals), and a Pandas `NaN` entry in the `MATCH` column is `Option.none`.
-/

/-- Python `str.strip` / whitespace test: the ASCII whitespace characters
recognised by `\s` and `str.strip()` for the inputs used here. -/
def isPySpace (c : Char) : Bool :=
  c = ' ' || c = '\t' || c = '\n' || c = '\r' || c = '\x0b' || c = '\x0c'

/-- Python `str.upper()` restricted to ASCII (all SVTYPE values used by the
pipeline are ASCII).  Defined over the character list so that it evaluates
inside the kernel. -/
def pyUpper (s : String) : String :=
  String.mk (s.data.map Char.toUpper)

/-- Decimal digit rendering with structural fuel (`fuel` bounds the number of
digits; any `fuel > log10 n` gives the exact decimal form). -/
def pyStrNatAux : Nat → Nat → String
  | 0, _ => ""
  | fuel + 1, n =>
    if n < 10 then String.mk [Char.ofNat (48 + n)]
    else pyStrNatAux fuel (n / 10) ++ String.mk [Char.ofNat (48 + n % 10)]

/-- Python `str(n)` for a natural number: decimal digits.  Defined here so
that its output alphabet (digits only, no `'.'`) is available to proofs. -/
def pyStrNat (n : Nat) : String :=
  pyStrNatAux (n + 1) n

/-- Python `str(v)` for an integer. -/
def pyStrInt (v : Int) : String :=
  if v < 0 then "-" ++ pyStrNat (-v).toNat else pyStrNat v.toNat

/-- Decimal value of a digit list (inverse of `pyStrNat`, used to prove
`pyStrNat` injective). -/
def digitsVal (l : List Char) : Nat :=
  l.foldl (fun acc c => 10 * acc + (c.toNat - 48)) 0

/-- Python `int(s)`: strip whitespace, optional sign, decimal digits.
Returns `none` where Python `int()` raises `ValueError`.  (Underscore
digit grouping is not modelled; no caller in this development uses it.) -/
def pyParseInt (s : String) : Option Int :=
  let t := (s.toList.dropWhile isPySpace).reverse.dropWhile isPySpace |>.reverse
  let (sign, digits) :=
    match t with
    | '-' :: rest => ((-1 : Int), rest)
    | '+' :: rest => ((1 : Int), rest)
    | rest => ((1 : Int), rest)
  if digits = [] then none
  else if digits.all (fun c => '0' ≤ c && c ≤ '9') then
    some (sign * (digitsVal digits : Int))
  else none

/-- Python `','.join(xs)`. -/
def commaJoin : List String → String
  | [] => ""
  | [x] => x
  | x :: xs => x ++ "," ++ commaJoin xs

/-- The duplicated values of a list, in first-occurrence order: embeds the
Python idiom `[val for val, count in collections.Counter(xs).items() if count > 1]`. -/
def dupList (xs : List String) : List String :=
  xs.dedup.filter (fun v => 1 < xs.count v)

/-- Decidable equality for `Except` results, used to evaluate the embedded
functions at concrete inputs inside proofs. -/
def exceptDecEqAux {e a : Type} [DecidableEq e] [DecidableEq a] :
    (x y : Except e a) → Decidable (x = y)
  | Except.ok u, Except.ok v =>
    if h : u = v then Decidable.isTrue (congrArg Except.ok h)
    else Decidable.isFalse (fun hc => h (by injection hc))
  | Except.error u, Except.error v =>
    if h : u = v then Decidable.isTrue (congrArg Except.error h)
    else Decidable.isFalse (fun hc => h (by injection hc))
  | Except.ok _, Except.error _ => Decidable.isFalse (fun hc => Except.noConfusion hc)
  | Except.error _, Except.ok _ => Decidable.isFalse (fun hc => Except.noConfusion hc)

instance {e a : Type} [DecidableEq e] [DecidableEq a] : DecidableEq (Except e a) :=
  exceptDecEqAux

/- ----------------------------------------------------------------- -/
/- svpoplib/variant.py : reciprocal_overlap                          -/
/- ----------------------------------------------------------------- -/

/-- Embeds `svpoplib.variant.reciprocal_overlap` (variant.py lines 14-34):
`overlap = min(end_a, end_b) - max(begin_a, begin_b)`; `0.0` when
`overlap < 0`, else the minimum of `overlap` over each interval length. -/
def reciprocal_overlap (begin_a end_a begin_b end_b : ℚ) : ℚ :=
  let overlap := min end_a end_b - max begin_a begin_b
  if overlap < 0 then 0
  else min (overlap / (end_a - begin_a)) (overlap / (end_b - begin_b))

/- ----------------------------------------------------------------- -/
/- svpoplib/variant.py : version_id                                  -/
/- ----------------------------------------------------------------- -/

/-- Split a character list at its last `'.'`: `some (base, suffix)` when a
dot exists, `none` otherwise.  Implements Python `name.rsplit('.', 1)`. -/
def splitLastDot : List Char → Option (List Char × List Char)
  | [] => none
  | c :: cs =>
    match splitLastDot cs with
    | some (b, sfx) => some (c :: b, sfx)
    | none => if c = '.' then some ([], cs) else none

/-- Python `name.rsplit('.', 1)` packaged for `version_id`: the base part and
the optional suffix after the last dot. -/
def rsplitDot (s : String) : String × Option String :=
  match splitLastDot s.toList with
  | none => (s, none)
  | some (b, sfx) => (String.mk b, some (String.mk sfx))

/-- The versioned name `'.'.join([base, str(v)])` built by `version_id`. -/
def mkVer (base : String) (v : Int) : String :=
  base ++ "." ++ pyStrInt v

/-- The `while new_name in id_set` search of `version_id`: starting version
`v`, increment until the versioned name is absent from `id_set`.  The Python
loop always terminates because versioned names are distinct for distinct
versions and `id_set` is finite; the embedding uses fuel
`id_set.length + 1`, which bounds the iterations actually possible in the
verified paths (every membership hit consumes one distinct set element). -/
def findFresh (base : String) (idSet : List String) : Int → Nat → Int
  | v, 0 => v
  | v, fuel + 1 => if mkVer base v ∈ idSet then findFresh base idSet (v + 1) fuel else v

/-- One duplicate rename of `version_id` (variant.py lines 660-682): split off
a trailing `.n` (error when the suffix is not an integer), start from version
`n + 1` (or `1` with no suffix), and search upward for a fresh name. -/
def renameOne (idSet : List String) (name : String) : Except String String :=
  match rsplitDot name with
  | (_, none) =>
    Except.ok (mkVer name (findFresh name idSet 1 (idSet.length + 1)))
  | (base, some sfx) =>
    match pyParseInt sfx with
    | none => Except.error ("Error de-duplicating variant ID field: Split " ++ name ++
        " on . and expected to find an integer at the end")
    | some n =>
      Except.ok (mkVer base (findFresh base idSet (n + 1) (idSet.length + 1)))

/-- The main rewrite loop of `version_id`: walk the column in order, rename
entries whose name is duplicated (`isDup`), and add every assigned name to
the avoided set. -/
def versionLoop (isDup : String → Bool) : List String → List String → Except String (List String)
  | _, [] => Except.ok []
  | idSet, name :: rest =>
    if isDup name then
      match renameOne idSet name with
      | Except.error e => Except.error e
      | Except.ok newName =>
        match versionLoop isDup (newName :: idSet) rest with
        | Except.error e => Except.error e
        | Except.ok tail => Except.ok (newName :: tail)
    else
      match versionLoop isDup idSet rest with
      | Except.error e => Except.error e
      | Except.ok tail => Except.ok (name :: tail)

/-- Multiplicity of `x` in the `collections.Counter` built by `version_id`:
one per occurrence in the column plus one when `x` is in the existing-ID set
(a Python set contributes each element once). -/
def vidCount (col : List String) (existing : Option (List String)) (x : String) : Nat :=
  (match existing with
   | none => 0
   | some es => if x ∈ es then 1 else 0) + col.count x

/-- Membership test for `dup_set = {val for val, count in id_count.items() if count > 1}`. -/
def vidIsDup (col : List String) (existing : Option (List String)) (x : String) : Bool :=
  2 ≤ vidCount col existing x

/-- The initial `id_set = set(id_col) - dup_set` (union the existing set when
given): the names the renaming loop must avoid, as a membership list. -/
def vidInitSet (col : List String) (existing : Option (List String)) : List String :=
  col.filter (fun x => ¬ vidIsDup col existing x) ++
    (match existing with
     | none => []
     | some es => es)

/-- Embeds `svpoplib.variant.version_id` (variant.py lines 616-685): return
the column unchanged when no ID has multiplicity above one, otherwise rename
every duplicated entry by appending `.k` for the first non-colliding `k`. -/
def version_id (col : List String) (existing : Option (List String)) :
    Except String (List String) :=
  if col.any (fun x => vidIsDup col existing x) then
    versionLoop (vidIsDup col existing) (vidInitSet col existing) col
  else
    Except.ok col

/- ----------------------------------------------------------------- -/
/- svpoplib/svmerge.py : read_variant_table column defaults          -/
/- ----------------------------------------------------------------- -/

/-- One row of a variant table (`#CHROM POS END ID SVTYPE SVLEN`).  `pos` and
`endPos` are 0-based half-open coordinates. -/
structure VRow where
  chrom : String
  pos : Int
  endPos : Int
  id : String
  svtype : String
  svlen : Int
  deriving Repr, DecidableEq

/-- A raw variant table as read from a BED file: rows plus column-presence
flags for the columns that `read_variant_table` may have to synthesise.  A
field whose presence flag is `false` holds a placeholder value that the code
never reads before overwriting it. -/
structure RawTable where
  rows : List VRow
  hasEnd : Bool
  hasSvtype : Bool
  hasSvlen : Bool
  deriving Repr, DecidableEq

/-- Embeds the missing-column defaults block of
`svpoplib.svmerge.read_variant_table` (svmerge.py lines 1040-1052): when the
SVLEN column is absent, demand both END and SVTYPE, reject tables with any
INS row (uppercased comparison, as in the source), and derive
`SVLEN = END - POS`; then, when the SVTYPE column is absent, set every row to
`RGN`. -/
def set_missing_defaults (t : RawTable) : Except String RawTable :=
  let step1 : Except String RawTable :=
    if t.hasSvlen then Except.ok t
    else if !t.hasEnd || !t.hasSvtype then
      Except.error "Missing SVLEN: Need both SVTYPE and END to set automatically"
    else if t.rows.any (fun r => pyUpper r.svtype = "INS") then
      Except.error
        "Missing SVLEN: Cannot compute for insertions (SVTYPE must not be INS for any record)"
    else
      Except.ok { t with
        rows := t.rows.map (fun r => { r with svlen := r.endPos - r.pos }),
        hasSvlen := true }
  match step1 with
  | Except.error e => Except.error e
  | Except.ok t1 =>
    if t1.hasSvtype then Except.ok t1
    else Except.ok { t1 with
      rows := t1.rows.map (fun r => { r with svtype := "RGN" }),
      hasSvtype := true }

/- ----------------------------------------------------------------- -/
/- svpoplib/svmerge.py : get_param_set                               -/
/- ----------------------------------------------------------------- -/

/-- Python `str.lower()` restricted to ASCII (parameter keys are ASCII). -/
def pyLower (s : String) : String :=
  String.mk (s.data.map Char.toLower)

/-- Python `s.strip()` over the character list (kernel-reducible, unlike
`String.trim`). -/
def pyStrip (s : String) : String :=
  String.mk ((s.data.dropWhile isPySpace).reverse.dropWhile isPySpace |>.reverse)

/-- Python `s.split(sep)` for a one-character separator: keeps empty pieces,
and the empty string yields one empty piece. -/
def pySplitOn (sep : Char) : List Char → List (List Char)
  | [] => [[]]
  | c :: cs =>
    let r := pySplitOn sep cs
    if c = sep then [] :: r
    else
      match r with
      | [] => [[c]]
      | h :: t => (c :: h) :: t

/-- The colon-separated elements of a merge parameter string
(`merge_params.split(':')`). -/
def paramElements (s : String) : List String :=
  (pySplitOn ':' s.data).map String.mk

/-- Split a token at its first `=`; `none` when there is no `=`. -/
def splitFirstEq : List Char → Option (List Char × List Char)
  | [] => none
  | c :: cs =>
    if c = '=' then some ([], cs)
    else
      match splitFirstEq cs with
      | none => none
      | some (a, b) => some (c :: a, b)

/-- Python `float(s)` for plain decimal literals (optional sign, digits,
optional fractional part).  Exponents, `inf` and `nan` are not modelled; no
merge-parameter value in this development uses them.  Returns `none` where
`float()` raises `ValueError`. -/
def pyParseFloat (s : String) : Option ℚ :=
  let t := (s.data.dropWhile isPySpace).reverse.dropWhile isPySpace |>.reverse
  let (sign, rest) :=
    match t with
    | '-' :: r => ((-1 : ℚ), r)
    | '+' :: r => ((1 : ℚ), r)
    | r => ((1 : ℚ), r)
  let intPart := rest.takeWhile Char.isDigit
  let rest2 := rest.drop intPart.length
  match rest2 with
  | [] => if intPart = [] then none else some (sign * (digitsVal intPart : ℚ))
  | '.' :: frac =>
    if intPart = [] ∧ frac = [] then none
    else if frac.all Char.isDigit then
      some (sign * ((digitsVal intPart : ℚ) + (digitsVal frac : ℚ) / (10 ^ frac.length)))
    else none
  | _ => none

/-- Tokenize one parameter element, as `re.split('\s*=\s*', element, 1)`
followed by `key.lower()`: the key is the text before the first `=` with
trailing whitespace removed and lowercased; the value is the text after the
first `=` with leading whitespace removed (`none` when there is no `=`). -/
def paramKeyVal (element : String) : String × Option String :=
  match splitFirstEq element.data with
  | none => (pyLower element, none)
  | some (k, v) =>
    (pyLower (String.mk ((k.reverse.dropWhile isPySpace).reverse)),
      some (String.mk (v.dropWhile isPySpace)))

/-- The alignment parameters configured by the `match` option
(`ALIGN_PARAM_FIELD_LIST`, svmerge.py lines 17-25).  `mapLimit` is an
`Option` because the source documents `na`/`unlimited` as clearing it. -/
structure AlignParam where
  scoreProp : ℚ
  matchScore : ℚ
  mismatch : ℚ
  gapOpen : ℚ
  gapExtend : ℚ
  mapLimit : Option Int
  jaccardKmer : Int
  deriving Repr, DecidableEq

/-- `ALIGN_PARAM_DEFAULT`: 0.8, 2.0, -1.0, -5.0, -0.5, 20000, 9. -/
def ALIGN_PARAM_DEFAULT : AlignParam :=
  ⟨(8 : ℚ) / 10, 2, -1, -5, (-1 : ℚ) / 2, some 20000, 9⟩

/-- The validated merge parameter record built by `get_param_set`
(svmerge.py lines 772-793).  The configured aligner object is determined by
`align_param` and is not part of the record. -/
structure ParamSet where
  ro_min : Option ℚ
  szro_min : Option ℚ
  offset_max : Option Int
  match_ref : Bool
  match_alt : Bool
  expand_base : Bool
  match_seq : Bool
  align_match_prop : Option ℚ
  align_param : Option AlignParam
  read_seq : Bool
  deriving Repr, DecidableEq

/-- The initial parameter record: everything unset. -/
def initParamSet : ParamSet :=
  ⟨none, none, none, false, false, false, false, none, none, false⟩

/-- The source expression `tok.lower in ("na", "unlimited")` (svmerge.py line
920): `tok.lower` is an uncalled method reference, never equal to a string,
so the membership test is constantly false regardless of `tok`.  (The
adjacent comment documents the intent that `NA` or `UNLIMITED` clear the map
limit.) -/
def mapLimitNaTest (_tok : String) : Bool := false

/-- Apply one `match` argument token at position `i` (svmerge.py lines
909-947): parse by the field's type, validate its range, and assign. -/
def applyMatchTok (ap : AlignParam) (i : Nat) (tok : String) : Except String AlignParam :=
  if i = 0 then
    match pyParseFloat tok with
    | none => Except.error ("Alignment parameter 0 in match type mismatch: Expected float: " ++ tok)
    | some q =>
      if q ≤ 0 ∨ 1 < q then
        Except.error ("Alignment parameter 0 (SCORE-PROP) in match must be between 0 (exclusive) and 1 (inclusive): " ++ tok)
      else Except.ok { ap with scoreProp := q }
  else if i = 1 then
    match pyParseFloat tok with
    | none => Except.error ("Alignment parameter 1 in match type mismatch: Expected float: " ++ tok)
    | some q =>
      if q ≤ 0 then Except.error ("Alignment parameter 1 (MATCH) in match must be positive: " ++ tok)
      else Except.ok { ap with matchScore := q }
  else if i = 2 then
    match pyParseFloat tok with
    | none => Except.error ("Alignment parameter 2 in match type mismatch: Expected float: " ++ tok)
    | some q =>
      if 0 < q then Except.error ("Alignment parameter 2 (MISMATCH) in match must not be positive: " ++ tok)
      else Except.ok { ap with mismatch := q }
  else if i = 3 then
    match pyParseFloat tok with
    | none => Except.error ("Alignment parameter 3 in match type mismatch: Expected float: " ++ tok)
    | some q =>
      if 0 < q then Except.error ("Alignment parameter 3 (GAP-OPEN) in match must not be positive: " ++ tok)
      else Except.ok { ap with gapOpen := q }
  else if i = 4 then
    match pyParseFloat tok with
    | none => Except.error ("Alignment parameter 4 in match type mismatch: Expected float: " ++ tok)
    | some q =>
      if 0 < q then Except.error ("Alignment parameter 4 (GAP-EXTEND) in match must not be positive: " ++ tok)
      else Except.ok { ap with gapExtend := q }
  else if i = 5 then
    if mapLimitNaTest tok then Except.ok { ap with mapLimit := none }
    else
      match pyParseInt tok with
      | none => Except.error ("Alignment parameter 5 in match type mismatch: Expected int: " ++ tok)
      | some n =>
        if n < 0 then Except.error ("Alignment parameter 5 (MAP-LIMIT) in match must not be negative: " ++ tok)
        else Except.ok { ap with mapLimit := some n }
  else
    match pyParseInt tok with
    | none => Except.error ("Alignment parameter 6 in match type mismatch: Expected int: " ++ tok)
    | some n =>
      if n ≤ 0 then Except.error ("Alignment parameter 6 (JACCARD-KMER) in match must be positive: " ++ tok)
      else Except.ok { ap with jaccardKmer := n }

/-- Walk the comma-separated `match` argument tokens in order, skipping empty
tokens (their defaults stay). -/
def applyMatchToks : AlignParam → Nat → List String → Except String AlignParam
  | ap, _, [] => Except.ok ap
  | ap, i, tok0 :: rest =>
    let tok := pyStrip tok0
    if tok = "" then applyMatchToks ap (i + 1) rest
    else
      match applyMatchTok ap i tok with
      | Except.error e => Except.error e
      | Except.ok ap2 => applyMatchToks ap2 (i + 1) rest

/-- The `match` key handler (svmerge.py lines 887-947): start from the
defaults, split the argument on commas (a missing or empty argument gives a
single empty token, leaving all defaults), reject more than 7 tokens, and
fold the token assignments. -/
def processMatchVal (ps : ParamSet) (val : Option String) : Except String ParamSet :=
  let v := pyStrip (match val with | none => "" | some s => s)
  let valSplit := (pySplitOn ',' v.data).map String.mk
  if 7 < valSplit.length then
    Except.error "Alignment parameter in match argument count exceeds max: 7"
  else
    match applyMatchToks ALIGN_PARAM_DEFAULT 0 valSplit with
    | Except.error e => Except.error e
    | Except.ok ap => Except.ok { ps with align_param := some ap }

/-- The `ro` key handler (svmerge.py lines 818-832). -/
def roHandler (ps : ParamSet) (val : Option String) : Except String ParamSet :=
  match val with
  | none => Except.error "Missing value for parameter ro"
  | some v =>
    if v ≠ "any" then
      match pyParseInt (pyStrip v) with
      | none => Except.error ("invalid literal for int() with base 10: " ++ v)
      | some n =>
        if (n : ℚ) / 100 < 0 ∨ 1 < (n : ℚ) / 100 then
          Except.error "Overlap length (ro) must be between 0 and 100 (inclusive)"
        else Except.ok { ps with ro_min := some ((n : ℚ) / 100) }
    else Except.error "RO any is not yet implemented"

/-- The `szro` key handler (svmerge.py lines 834-847). -/
def szroHandler (ps : ParamSet) (val : Option String) : Except String ParamSet :=
  match val with
  | none => Except.error "Missing value for parameter szro"
  | some v =>
    if v ≠ "any" then
      match pyParseInt (pyStrip v) with
      | none => Except.error ("invalid literal for int() with base 10: " ++ v)
      | some n =>
        if (n : ℚ) / 100 < 0 ∨ 1 < (n : ℚ) / 100 then
          Except.error "Overlap length (szro) must be between 0 and 100 (inclusive)"
        else Except.ok { ps with szro_min := some ((n : ℚ) / 100) }
    else Except.ok { ps with szro_min := none }

/-- The `offset` key handler (svmerge.py lines 849-860). -/
def offsetHandler (ps : ParamSet) (val : Option String) : Except String ParamSet :=
  match val with
  | none => Except.error "Missing value for parameter offset"
  | some v =>
    if v ≠ "any" then
      match pyParseInt (pyStrip v) with
      | none => Except.error ("invalid literal for int() with base 10: " ++ v)
      | some n =>
        if n < 0 then
          Except.error "Maximum offset (offset parameter) may not be negative"
        else Except.ok { ps with offset_max := some n }
    else Except.ok { ps with offset_max := none }

/-- Process one colon-separated parameter element (the body of the key loop
of `get_param_set`, svmerge.py lines 800-950). -/
def processParamTok (ps : ParamSet) (element0 : String) : Except String ParamSet :=
  let element := pyStrip element0
  if element = "" then Except.ok ps
  else
    let kv := paramKeyVal element
    let key := kv.1
    let val := kv.2
    if key = "ro" then roHandler ps val
    else if key = "szro" then szroHandler ps val
    else if key = "offset" then offsetHandler ps val
    else if key = "refalt" then
      match val with
      | some _ => Except.error "Match-REF/ALT (refalt) should not have an argument"
      | none => Except.ok { ps with match_ref := true, match_alt := true }
    else if key = "ref" then
      match val with
      | some _ => Except.error "Match-REF (ref) should not have an argument"
      | none => Except.ok { ps with match_ref := true }
    else if key = "alt" then
      match val with
      | some _ => Except.error "Match-ALT (alt) should not have an argument"
      | none => Except.ok { ps with match_alt := true }
    else if key = "expand" then
      match val with
      | some _ => Except.error "Expand-base (expand) should not have an argument"
      | none => Except.ok { ps with expand_base := true }
    else if key = "match" then
      processMatchVal ps val
    else
      Except.error ("Unknown parameter token: " ++ key)

/-- Fold the parameter elements in order. -/
def processParamToks : ParamSet → List String → Except String ParamSet
  | ps, [] => Except.ok ps
  | ps, e :: rest =>
    match processParamTok ps e with
    | Except.error err => Except.error err
    | Except.ok ps2 => processParamToks ps2 rest

/-- The post-loop checks and derivations of `get_param_set` (svmerge.py lines
952-979): `szro` without `offset` is an error, `ro` defaults to `szro`, and
`match_seq` / `align_match_prop` / `read_seq` are derived from `align_param`. -/
def finalizeParamSet (ps : ParamSet) : Except String ParamSet :=
  if ps.szro_min ≠ none ∧ ps.offset_max = none then
    Except.error "Parameters szro was specified without offset"
  else
    let ps1 :=
      if ps.ro_min = none ∧ ps.szro_min ≠ none then { ps with ro_min := ps.szro_min } else ps
    let ps2 :=
      match ps1.align_param with
      | some ap => { ps1 with match_seq := true, align_match_prop := some ap.scoreProp }
      | none => { ps1 with match_seq := false, align_match_prop := none }
    Except.ok { ps2 with read_seq := ps2.match_seq }

/-- Embeds `svpoplib.svmerge.get_param_set` (svmerge.py lines 762-982). -/
def get_param_set (merge_params : Option String) : Except String ParamSet :=
  match merge_params with
  | none => Except.error "Cannot merge (strategy=nr) with parameters: None"
  | some s =>
    match processParamToks initParamSet (paramElements s) with
    | Except.error e => Except.error e
    | Except.ok ps => finalizeParamSet ps

/- ----------------------------------------------------------------- -/
/- svpoplib/svmerge.py : get_support_table_exact                     -/
/- ----------------------------------------------------------------- -/

/-- One row of a variant table as consumed by the exact matcher: the sort-key
columns of `get_support_table_exact` plus the row ID.  For tables whose merge
parameters do not compare REF/ALT/SEQ, those fields are never read. -/
structure ERow where
  chrom : String
  pos : Int
  svlen : Int
  ref : String
  alt : String
  seq : String
  id : String
  deriving Repr, DecidableEq

/-- One row of the support table emitted by the matchers: lead ID, matched
(target) ID and the evidence metrics; `matchProp = none` models the NaN
written when sequences are not compared. -/
structure MatchRow where
  id : String
  target_id : String
  offset : ℚ
  ro : ℚ
  szro : ℚ
  offsz : ℚ
  matchProp : Option ℚ
  deriving Repr, DecidableEq

/-- Three-way comparison by `<` then `>`, mirroring the chained
`if a < b: ... elif a > b: ...` tests of the source loop. -/
def cmpv {α : Type} [LinearOrder α] (a b : α) : Ordering :=
  if a < b then Ordering.lt else if b < a then Ordering.gt else Ordering.eq

/-- The composite comparison performed by one iteration of the
`get_support_table_exact` loop (svmerge.py lines 1412-1463): compare
`#CHROM`, then `POS`, then `SVLEN`, then `REF`, `ALT` and `SEQ` for exactly
the match flags that are set.  The chained per-field advance of the source is
the lexicographic combination of the per-field comparisons. -/
def keyCmp (mr ma ms : Bool) (a b : ERow) : Ordering :=
  (cmpv a.chrom b.chrom).then ((cmpv a.pos b.pos).then ((cmpv a.svlen b.svlen).then
    ((if mr then cmpv a.ref b.ref else Ordering.eq).then
      ((if ma then cmpv a.alt b.alt else Ordering.eq).then
        (if ms then cmpv a.seq b.seq else Ordering.eq)))))

/-- The two-pointer merge-join of `get_support_table_exact` (svmerge.py lines
1404-1477) on two (sorted) row lists: when the next `df_next` row compares
below the next `df` row advance `df_next`, when above advance `df`, and on
key equality emit the match row
`(id, target_id, 0, 1, 1, 0, 1.0 if match_seq else NaN)` and advance both. -/
def get_support_table_exact_loop (mr ma ms : Bool) : List ERow → List ERow → List MatchRow
  | [], _ => []
  | _ :: _, [] => []
  | a :: xs, b :: ys =>
    match keyCmp mr ma ms b a with
    | Ordering.lt => get_support_table_exact_loop mr ma ms (a :: xs) ys
    | Ordering.gt => get_support_table_exact_loop mr ma ms xs (b :: ys)
    | Ordering.eq =>
      ⟨a.id, b.id, 0, 1, 1, 0, if ms then some 1 else none⟩ ::
        get_support_table_exact_loop mr ma ms xs ys
termination_by xs ys => xs.length + ys.length

/-- The sort order used before the loop (`df.sort_values(sort_cols)`). -/
def exactSortLe (mr ma ms : Bool) (a b : ERow) : Prop :=
  keyCmp mr ma ms a b ≠ Ordering.gt

instance (mr ma ms : Bool) : DecidableRel (exactSortLe mr ma ms) :=
  fun _ _ => instDecidableNot

/-- Embeds `svpoplib.svmerge.get_support_table_exact` (svmerge.py lines
1337-1485): sort both tables by the composite key, then run the two-pointer
merge-join.  The column-presence checks of the source are not modelled (all
`ERow` fields are total). -/
def get_support_table_exact (mr ma ms : Bool) (df df_next : List ERow) : List MatchRow :=
  get_support_table_exact_loop mr ma ms
    (List.insertionSort (exactSortLe mr ma ms) df)
    (List.insertionSort (exactSortLe mr ma ms) df_next)

/-- Equality on the composite key of the exact matcher: the always-compared
columns agree, and each optional column agrees when its flag is set. -/
def keyEqE (mr ma ms : Bool) (a b : ERow) : Prop :=
  a.chrom = b.chrom ∧ a.pos = b.pos ∧ a.svlen = b.svlen
    ∧ (mr = true → a.ref = b.ref) ∧ (ma = true → a.alt = b.alt)
    ∧ (ms = true → a.seq = b.seq)

/- ----------------------------------------------------------------- -/
/- svpoplib/svmerge.py : merge_variants_nr (single sample) and       -/
/- merge_sample_by_support                                           -/
/- ----------------------------------------------------------------- -/

/-- One row of the running merged table `df` of `merge_variants_nr`: the
variant columns plus the tracking columns added at lines 203-212.
`support_match` is `Option ℚ` because the MATCH evidence may be NaN. -/
structure MergedRecord where
  chrom : String
  pos : Int
  endPos : Int
  id : String
  svtype : String
  svlen : Int
  sample : String
  support_id : String
  support_sample : String
  support_offset : ℚ
  support_ro : ℚ
  support_szro : ℚ
  support_offsz : ℚ
  support_match : Option ℚ
  deriving Repr, DecidableEq

/-- The categorical code of a sample name under
`pd.Categorical(col, sample_names)` (absent names sort last). -/
def sampleIdx (sns : List String) (s : String) : Nat :=
  sns.indexOf s

/-- The tracking columns of a lead (self-supporting) row: sentinels `-1`
(svmerge.py lines 203-212 and 370-378). -/
def mkLead (sampleName : String) (v : VRow) : MergedRecord :=
  ⟨v.chrom, v.pos, v.endPos, v.id, v.svtype, v.svlen,
    sampleName, v.id, sampleName, -1, -1, -1, -1, some (-1)⟩

/-- The sentinel normalization of the finalizer (svmerge.py lines 411-415):
`SUPPORT_OFFSET := max(0, ·)` and absolute values of the four ratio/score
columns (`np.abs` maps NaN to NaN). -/
def normalizeSupport (r : MergedRecord) : MergedRecord :=
  { r with
    support_offset := max 0 r.support_offset,
    support_ro := |r.support_ro|,
    support_szro := |r.support_szro|,
    support_offsz := |r.support_offsz|,
    support_match := r.support_match.map (fun q => |q|) }

/-- The lexicographic sort key of the finalizer sort (svmerge.py lines
419-423): SAMPLE ascending (categorical code), SUPPORT_RO descending,
SUPPORT_OFFSET ascending, SUPPORT_SZRO descending, SUPPORT_OFFSZ descending,
SUPPORT_MATCH descending with NaN last (Pandas default `na_position`). -/
def finKey (sns : List String) (r : MergedRecord) :
    Nat ×ₗ ℚ ×ₗ ℚ ×ₗ ℚ ×ₗ ℚ ×ₗ WithTop ℚ :=
  toLex (sampleIdx sns r.sample, toLex (-r.support_ro, toLex (r.support_offset,
    toLex (-r.support_szro, toLex (-r.support_offsz,
      (match r.support_match with
       | none => (⊤ : WithTop ℚ)
       | some q => ((-q : ℚ) : WithTop ℚ)))))))

/-- Row order of the finalizer sort. -/
def finLe (sns : List String) (a b : MergedRecord) : Prop :=
  finKey sns a ≤ finKey sns b

instance (sns : List String) : DecidableRel (finLe sns) :=
  fun a b => inferInstanceAs (Decidable (finKey sns a ≤ finKey sns b))

/-- `df.sort_values(...)` of the finalizer: a stable sort by `finKey`
(Pandas multi-column sorting is a stable lexsort). -/
def finalSort (sns : List String) (rows : List MergedRecord) : List MergedRecord :=
  List.insertionSort (finLe sns) rows

/-- The dedup key of `drop_duplicates(["SUPPORT_ID", "SAMPLE",
"SUPPORT_SAMPLE"])`. -/
def trip (r : MergedRecord) : String × String × String :=
  (r.support_id, r.sample, r.support_sample)

/-- Pandas `drop_duplicates(key_cols, keep="first")`: keep each row whose key
has not been seen before. -/
def dropDupFirst {a k : Type} [DecidableEq k] (key : a → k) : List a → List k → List a
  | [], _ => []
  | x :: l, seen =>
    if key x ∈ seen then dropDupFirst key l seen
    else x :: dropDupFirst key l (key x :: seen)

/-- The finalizer sort followed by the per-triple dedup (svmerge.py lines
419-426). -/
def finalDedup (sns : List String) (rows : List MergedRecord) : List MergedRecord :=
  dropDupFirst trip (finalSort sns rows) []

/-- The re-sort by (SUPPORT_ID, SAMPLE, SUPPORT_SAMPLE) before grouping
(svmerge.py line 429); SAMPLE columns are categorical. -/
def idSortLe (sns : List String) (a b : MergedRecord) : Prop :=
  toLex (a.support_id, toLex (sampleIdx sns a.sample, sampleIdx sns a.support_sample))
    ≤ toLex (b.support_id, toLex (sampleIdx sns b.sample, sampleIdx sns b.support_sample))

instance (sns : List String) : DecidableRel (idSortLe sns) :=
  fun a b => inferInstanceAs (Decidable (_ ≤ _))

/-- Fixed-point decimal formatting of a non-negative rational with
round-half-even, the rounding Python `format` applies (`prec = 0` renders no
decimal point, as `"{:.0f}"` does). -/
def fmtFixedNonneg (prec : Nat) (q : ℚ) : String :=
  let scaled := q * ((10 : ℚ) ^ prec)
  let fl : Int := ⌊scaled⌋
  let fr : ℚ := scaled - (fl : ℚ)
  let n : Int :=
    if 1 / 2 < fr then fl + 1
    else if fr < 1 / 2 then fl
    else if fl % 2 = 0 then fl else fl + 1
  let nn := n.toNat
  let ip := nn / 10 ^ prec
  let fp := nn % 10 ^ prec
  if prec = 0 then pyStrNat ip
  else
    let fs := pyStrNat fp
    pyStrNat ip ++ "." ++ String.mk (List.replicate (prec - fs.data.length) '\x30') ++ fs

/-- Python `"{:.Nf}".format(q)` for the values arising in the merger (all
non-negative; a negative value would render with a leading minus). -/
def fmtFixed (prec : Nat) (q : ℚ) : String :=
  if q < 0 then "-" ++ fmtFixedNonneg prec (-q) else fmtFixedNonneg prec q

/-- Formatting of the MATCH column: NaN renders as `nan`. -/
def fmtMatch (prec : Nat) : Option ℚ → String
  | none => "nan"
  | some q => fmtFixed prec q

/-- One summary row of the `groupby("SUPPORT_ID").apply(...)` frame
(svmerge.py lines 431-457).  `k` is the group key and `g` the group rows in
table order; groups are never empty. -/
structure SummaryRow where
  support_id : String
  merge_src : String
  merge_src_id : String
  merge_ac : Nat
  merge_af : String
  merge_samples : String
  merge_variants : String
  merge_ro : String
  merge_offset : String
  merge_szro : String
  merge_offsz : String
  merge_match : String
  deriving Repr, DecidableEq

/-- Build one summary row from a group (svmerge.py lines 433-456). -/
def mkSummary (nSamples : Nat) (k : String) (g : List MergedRecord) : SummaryRow :=
  match g with
  | [] => ⟨k, "", "", 0, "", "", "", "", "", "", "", ""⟩
  | m :: _ =>
    ⟨k, m.support_sample, m.id, g.length,
      fmtFixed 4 ((g.length : ℚ) / (nSamples : ℚ)),
      commaJoin (g.map (fun r => r.sample)),
      commaJoin (g.map (fun r => r.id)),
      commaJoin (g.map (fun r => fmtFixed 2 r.support_ro)),
      commaJoin (g.map (fun r => fmtFixed 0 r.support_offset)),
      commaJoin (g.map (fun r => fmtFixed 2 r.support_szro)),
      commaJoin (g.map (fun r => fmtFixed 2 r.support_offsz)),
      commaJoin (g.map (fun r => fmtMatch 2 r.support_match))⟩

/-- The finalizer of `merge_variants_nr` (svmerge.py lines 403-469):
normalize sentinels, sort by best support, keep the best row per
(SUPPORT_ID, SAMPLE, SUPPORT_SAMPLE), re-sort by IDs, and emit one summary
row per SUPPORT_ID group (Pandas `groupby` sorts the group keys and keeps
the table order inside each group).  The IS_PRIMARY column set at line 417
is not read anywhere downstream and is not modelled.  An empty table gives
the empty support frame (lines 461-469). -/
def finalize_merged (sns : List String) (nSamples : Nat) (df : List MergedRecord) :
    List SummaryRow :=
  if df = [] then []
  else
    let dfs := finalSort sns (df.map normalizeSupport)
    let dfd := dropDupFirst trip dfs []
    let dfr := List.insertionSort (idSortLe sns) dfd
    let ks := List.insertionSort (fun a b : String => a ≤ b)
      ((dfr.map (fun r => r.support_id)).dedup)
    ks.map (fun k => mkSummary nSamples k (dfr.filter (fun r => r.support_id = k)))

/-- One row of the final merged table built by `merge_sample_by_support`:
the original variant columns, the callset ID, and the merge annotation
columns.  `merge_ac` carries the `astype(np.int32)` value (the counts here
are far below 2^31) and `merge_af` the `astype(np.float32)` value of the
4-decimal AF string, modelled as the parsed rational. -/
structure OutRow where
  chrom : String
  pos : Int
  endPos : Int
  id : String
  svtype : String
  svlen : Int
  merge_src : String
  merge_src_id : String
  merge_ac : Int
  merge_af : ℚ
  merge_samples : String
  merge_variants : String
  merge_ro : String
  merge_offset : String
  merge_szro : String
  merge_offsz : String
  merge_match : String
  deriving Repr, DecidableEq

/-- Transfer of columns when joining one support row against the original
sample row it selects (svmerge.py lines 703-712). -/
def mkOutRow (s : SummaryRow) (v : VRow) : OutRow :=
  ⟨v.chrom, v.pos, v.endPos, s.support_id, v.svtype, v.svlen,
    s.merge_src, s.merge_src_id, (s.merge_ac : Int), (pyParseFloat s.merge_af).getD 0,
    s.merge_samples, s.merge_variants, s.merge_ro, s.merge_offset, s.merge_szro,
    s.merge_offsz, s.merge_match⟩

/-- `df_sample.loc[df_support_sample["MERGE_SRC_ID"]]` for one sample: each
support row selects every sample row with its MERGE_SRC_ID, in support-row
order; a missing ID raises (Pandas `KeyError`). -/
def joinSample (rows : List VRow) : List SummaryRow → Except String (List OutRow)
  | [] => Except.ok []
  | s :: ss =>
    match rows.filter (fun v => v.id = s.merge_src_id) with
    | [] => Except.error ("KeyError: " ++ s.merge_src_id)
    | m :: ms =>
      match joinSample rows ss with
      | Except.error e => Except.error e
      | Except.ok rest => Except.ok ((m :: ms).map (mkOutRow s) ++ rest)

/-- The per-sample loop of `merge_sample_by_support` (svmerge.py lines
679-715): subset the support rows to this sample's leads and join them
against the sample's original table.  (The source `continue`s on an empty
subset, which joins to the empty list here.) -/
def buildMerged (support : List SummaryRow) :
    List (String × List VRow) → Except String (List OutRow)
  | [] => Except.ok []
  | (sampleName, rows) :: rest =>
    match joinSample rows (support.filter (fun s => s.merge_src = sampleName)) with
    | Except.error e => Except.error e
    | Except.ok part =>
      match buildMerged support rest with
      | Except.error e => Except.error e
      | Except.ok restOut => Except.ok (part ++ restOut)

/-- Final `sort_values(["#CHROM", "POS"])` order. -/
def outLe (a b : OutRow) : Prop :=
  toLex (a.chrom, a.pos) ≤ toLex (b.chrom, b.pos)

instance : DecidableRel outLe :=
  fun a b => inferInstanceAs (Decidable (_ ≤ _))

/-- Embeds `svpoplib.svmerge.merge_sample_by_support` (svmerge.py lines
601-759) over in-memory sample tables: refuse duplicated SUPPORT_ID values
(lines 667-673), then join each sample's support rows against its original
rows and sort the concatenation by (#CHROM, POS).  Column bookkeeping
(`col_list`, head/tail ordering, missing-column fill) rearranges columns
only and is not modelled. -/
def merge_sample_by_support (support : List SummaryRow)
    (samples : List (String × List VRow)) : Except String (List OutRow) :=
  let dups := dupList (support.map (fun s => s.support_id))
  if dups ≠ [] then
    Except.error ("Duplicate IDs after merging: " ++ commaJoin (dups.take 3))
  else
    match buildMerged support samples with
    | Except.error e => Except.error e
    | Except.ok l => Except.ok (List.insertionSort outLe l)

/-- The row order of `read_variant_table`'s
`sort_values(["#CHROM", "POS", "SVLEN", "ID"])`. -/
def rvLe (a b : VRow) : Prop :=
  toLex (a.chrom, toLex (a.pos, toLex (a.svlen, a.id)))
    ≤ toLex (b.chrom, toLex (b.pos, toLex (b.svlen, b.id)))

instance : DecidableRel rvLe :=
  fun a b => inferInstanceAs (Decidable (_ ≤ _))

/-- Embeds `svpoplib.svmerge.read_variant_table` (svmerge.py lines 985-1085)
for an in-memory table with no REF/ALT/SEQ columns: set the missing-column
defaults, check SVLEN non-negativity, sort, and refuse duplicate IDs.  When
the merge parameters demand REF, ALT or SEQ, the modelled (column-free)
tables make `order_variant_columns` (or the SEQ-presence check) raise, which
the `needRef/needAlt/needSeq` test reproduces.  `order_variant_columns`
itself only rearranges columns and does not change rows. -/
def read_variant_table (needRef needAlt needSeq : Bool) (t : RawTable) :
    Except String (List VRow) :=
  match set_missing_defaults t with
  | Except.error e => Except.error e
  | Except.ok t1 =>
    if needRef || needAlt || needSeq then
      Except.error "Missing head column in variant file"
    else if t1.rows.any (fun r => r.svlen < 0) then
      Except.error "Negative SVLEN entries"
    else
      let sorted := List.insertionSort rvLe t1.rows
      if dupList (sorted.map (fun r => r.id)) ≠ [] then
        Except.error "Found IDs with duplicates in sample"
      else Except.ok sorted

/-- Embeds the single-sample run of `svpoplib.svmerge.merge_variants_nr`
(svmerge.py lines 96-472 with `len(bed_list) == 1`): sample-name checks,
parameter parsing, loading, the lead tracking columns, and — since the
per-sample loop body never runs and `base_support` stays empty — the
finalizer and `merge_sample_by_support` against the original table. -/
def merge_variants_nr_single (merge_params : Option String) (sampleName : String)
    (tab : RawTable) : Except String (List OutRow) :=
  let sname := pyStrip sampleName
  if sname = "" then Except.error "Found empty sample names"
  else if sname.data.any isPySpace then Except.error "Error: Sample names contain whitespace"
  else
    match get_param_set merge_params with
    | Except.error e => Except.error e
    | Except.ok ps =>
      match read_variant_table ps.match_ref ps.match_alt ps.read_seq tab with
      | Except.error e => Except.error e
      | Except.ok rows =>
        let df := rows.map (mkLead sname)
        let support := finalize_merged [sname] 1 df
        merge_sample_by_support support [(sname, tab.rows)]

/- ================================================================= -/
/- Theorems                                                          -/
/- ================================================================= -/

/-- Claim C5: for half-open integer intervals with positive length,
`reciprocal_overlap` equals `max 0 (min end_a end_b - max begin_a begin_b)`
divided by the larger interval length, and is `0` on disjoint intervals. -/
theorem reciprocal_overlap_spec (ba ea bb eb : ℚ) (ha : ba < ea) (hb : bb < eb) :
    reciprocal_overlap ba ea bb eb
        = max 0 (min ea eb - max ba bb) / max (ea - ba) (eb - bb)
      ∧ (min ea eb ≤ max ba bb → reciprocal_overlap ba ea bb eb = 0) := by
  have hla : (0 : ℚ) < ea - ba := by linarith
  have hlb : (0 : ℚ) < eb - bb := by linarith
  constructor
  · by_cases hneg : min ea eb - max ba bb < 0
    · have h1 : max 0 (min ea eb - max ba bb) = 0 := max_eq_left hneg.le
      simp only [reciprocal_overlap, if_pos hneg, h1, zero_div]
    · push_neg at hneg
      have h1 : max 0 (min ea eb - max ba bb) = min ea eb - max ba bb := max_eq_right hneg
      simp only [reciprocal_overlap, if_neg (not_lt.mpr hneg), h1]
      rcases le_total (ea - ba) (eb - bb) with hle | hle
      · have hdiv : (min ea eb - max ba bb) / (eb - bb) ≤ (min ea eb - max ba bb) / (ea - ba) := by
          gcongr
        rw [min_eq_right hdiv, max_eq_right hle]
      · have hdiv : (min ea eb - max ba bb) / (ea - ba) ≤ (min ea eb - max ba bb) / (eb - bb) := by
          gcongr
        rw [min_eq_left hdiv, max_eq_left hle]
  · intro hdisj
    have hle : min ea eb - max ba bb ≤ 0 := by linarith [sub_nonpos.mpr hdisj]
    by_cases hneg : min ea eb - max ba bb < 0
    · simp only [reciprocal_overlap, if_pos hneg]
    · have h0 : min ea eb - max ba bb = 0 := le_antisymm hle (not_lt.mp hneg)
      simp only [reciprocal_overlap, if_neg hneg, h0, zero_div, min_self]
      norm_num

/-- Witness for C5 at the concrete intervals [100,200) and [140,240). -/
theorem reciprocal_overlap_spec_witness :
    ((100 : ℚ) < 200 ∧ (140 : ℚ) < 240) ∧
      (reciprocal_overlap 100 200 140 240
          = max 0 (min (200 : ℚ) 240 - max 100 140) / max ((200 : ℚ) - 100) (240 - 140)
        ∧ (min (200 : ℚ) 240 ≤ max 100 140 → reciprocal_overlap 100 200 140 240 = 0)) :=
  ⟨⟨by norm_num, by norm_num⟩,
    reciprocal_overlap_spec 100 200 140 240 (by norm_num) (by norm_num)⟩

/-- Claim C9: `version_id` applied to a column of pairwise-distinct IDs that
are also disjoint from the supplied existing-ID set (or with no existing set
supplied) returns the column unchanged. -/
theorem version_id_nodup_unchanged (col : List String) (existing : Option (List String))
    (hnd : col.Nodup)
    (hdisj : ∀ es, existing = some es → ∀ x ∈ col, x ∉ es) :
    version_id col existing = Except.ok col := by
  have hany : (col.any fun x => vidIsDup col existing x) = false := by
    rw [List.any_eq_false]
    intro x hx
    simp only [vidIsDup, decide_eq_true_eq, not_le]
    have hcount : col.count x ≤ 1 := List.nodup_iff_count_le_one.mp hnd x
    have hex : (match existing with
        | none => 0
        | some es => if x ∈ es then 1 else 0) = 0 := by
      cases existing with
      | none => rfl
      | some es => simp [hdisj es rfl x hx]
    unfold vidCount
    omega
  unfold version_id
  rw [hany]
  simp

/-- Witness for C9 on a concrete unique column and disjoint existing set. -/
theorem version_id_nodup_unchanged_witness :
    version_id ["a", "b", "c"] (some ["d"]) = Except.ok ["a", "b", "c"] :=
  version_id_nodup_unchanged ["a", "b", "c"] (some ["d"]) (by decide)
    (by
      intro es he x hx
      cases he
      fin_cases hx <;> decide)

/-- Claim C10 counterexample: in the column `["x", "x", "x.1", "x.1"]` the
suffixed name `"x.1"` is already present in the column, so the claim's
skip rule would forbid assigning `"x.1"` to an occurrence of `"x"`; the code
nevertheless renames the first `"x"` to `"x.1"` (a duplicated suffixed name
is not in the initial avoid set `set(id_col) - dup_set`). -/
theorem version_id_dup_counterexample :
    version_id ["x", "x", "x.1", "x.1"] none = Except.ok ["x.1", "x.2", "x.3", "x.4"]
      ∧ "x.1" ∈ ["x", "x", "x.1", "x.1"] := by
  exact ⟨rfl, by decide⟩

theorem pyStrNatAux_digitsVal : ∀ fuel n, n < fuel →
    digitsVal (pyStrNatAux fuel n).toList = n := by
  intro fuel
  induction fuel with
  | zero => intro n hn; omega
  | succ f ih =>
    intro n hn
    by_cases h10 : n < 10
    · simp only [pyStrNatAux, if_pos h10]
      show digitsVal [Char.ofNat (48 + n)] = n
      unfold digitsVal
      interval_cases n <;> decide
    · simp only [pyStrNatAux, if_neg h10]
      have hdiv : n / 10 < f := by omega
      have hrec := ih (n / 10) hdiv
      have hsplit : (pyStrNatAux f (n / 10) ++ String.mk [Char.ofNat (48 + n % 10)]).toList
          = (pyStrNatAux f (n / 10)).toList ++ [Char.ofNat (48 + n % 10)] := by
        simp [String.toList, String.data_append, String.mk]
      rw [hsplit]
      unfold digitsVal
      rw [List.foldl_append]
      have hlast : (Char.ofNat (48 + n % 10)).toNat - 48 = n % 10 := by
        have hmod : n % 10 < 10 := Nat.mod_lt n (by omega)
        set d := n % 10 with hd
        interval_cases d <;> decide
      unfold digitsVal at hrec
      simp only [List.foldl_cons, List.foldl_nil]
      rw [hrec, hlast]
      omega

theorem pyStrNat_inj {m n : Nat} (h : pyStrNat m = pyStrNat n) : m = n := by
  have hm := pyStrNatAux_digitsVal (m + 1) m (by omega)
  have hn := pyStrNatAux_digitsVal (n + 1) n (by omega)
  unfold pyStrNat at h
  rw [h] at hm
  rw [hn] at hm
  omega

theorem dot_not_mem_pyStrNatAux : ∀ fuel n, '.' ∉ (pyStrNatAux fuel n).toList := by
  intro fuel
  induction fuel with
  | zero => intro n; simp [pyStrNatAux, String.toList]
  | succ f ih =>
    intro n
    by_cases h10 : n < 10
    · simp only [pyStrNatAux, if_pos h10]
      show '.' ∉ [Char.ofNat (48 + n)]
      interval_cases n <;> decide
    · simp only [pyStrNatAux, if_neg h10]
      intro hmem
      have : ('.' : Char) ∈ (pyStrNatAux f (n / 10)).toList ++ [Char.ofNat (48 + n % 10)] := by
        simpa [String.toList, String.data_append, String.mk] using hmem
      rcases List.mem_append.mp this with h1 | h2
      · exact ih (n / 10) h1
      · have hmod : n % 10 < 10 := Nat.mod_lt n (by omega)
        set d := n % 10 with hd
        revert h2
        interval_cases d <;> decide

theorem dot_not_mem_pyStrInt (v : Int) : '.' ∉ (pyStrInt v).toList := by
  unfold pyStrInt
  by_cases hv : v < 0
  · simp only [if_pos hv]
    intro hmem
    have : ('.' : Char) ∈ ('-' :: (pyStrNat (-v).toNat).toList) := by
      simpa [String.toList, String.data_append] using hmem
    rcases List.mem_cons.mp this with h1 | h2
    · exact absurd h1 (by decide)
    · exact dot_not_mem_pyStrNatAux _ _ h2
  · simp only [if_neg hv]
    exact dot_not_mem_pyStrNatAux _ _

theorem pyStrInt_natCast (m : Nat) : pyStrInt (m : Int) = pyStrNat m := by
  unfold pyStrInt
  rw [if_neg (by exact not_lt.mpr (Int.natCast_nonneg m))]
  simp

theorem splitLastDot_none_iff : ∀ l : List Char, splitLastDot l = none ↔ '.' ∉ l := by
  intro l
  induction l with
  | nil => simp [splitLastDot]
  | cons c cs ih =>
    constructor
    · intro h
      cases hrec : splitLastDot cs with
      | some p =>
        rcases p with ⟨b, sfx⟩
        simp [splitLastDot, hrec] at h
      | none =>
        have hcs : '.' ∉ cs := ih.mp hrec
        simp only [splitLastDot, hrec] at h
        by_cases hc : c = '.'
        · simp [hc] at h
        · intro hmem
          rcases List.mem_cons.mp hmem with h1 | h2
          · exact hc h1.symm
          · exact hcs h2
    · intro hmem
      have hc : c ≠ '.' := fun h => hmem (by rw [h]; exact List.mem_cons_self _ _)
      have hcs : '.' ∉ cs := fun h => hmem (List.mem_cons_of_mem _ h)
      have hrec : splitLastDot cs = none := (ih.mpr hcs)
      simp only [splitLastDot, hrec]
      rw [if_neg hc]

theorem splitLastDot_some : ∀ l b sfx, splitLastDot l = some (b, sfx) →
    l = b ++ '.' :: sfx ∧ '.' ∉ sfx := by
  intro l
  induction l with
  | nil => intro b sfx h; simp [splitLastDot] at h
  | cons c cs ih =>
    intro b sfx h
    cases hrec : splitLastDot cs with
    | some p =>
      rcases p with ⟨b2, sfx2⟩
      simp only [splitLastDot, hrec, Option.some.injEq, Prod.mk.injEq] at h
      obtain ⟨hb, hsfx⟩ := h
      have hcs := ih b2 sfx2 hrec
      subst hb hsfx
      refine ⟨?_, hcs.2⟩
      rw [List.cons_append]
      rw [← hcs.1]
    | none =>
      simp only [splitLastDot, hrec] at h
      by_cases hc : c = '.'
      · rw [if_pos hc] at h
        simp only [Option.some.injEq, Prod.mk.injEq] at h
        obtain ⟨hb, hsfx⟩ := h
        subst hc hb hsfx
        exact ⟨rfl, (splitLastDot_none_iff cs).mp hrec⟩
      · rw [if_neg hc] at h
        exact absurd h (by simp)

theorem firstDot_inj : ∀ (u v a b : List Char), '.' ∉ u → '.' ∉ v →
    u ++ '.' :: a = v ++ '.' :: b → u = v ∧ a = b := by
  intro u
  induction u with
  | nil =>
    intro v a b _ hv h
    cases v with
    | nil => simpa using h
    | cons d vs =>
      simp only [List.nil_append, List.cons_append, List.cons.injEq] at h
      exact absurd (by rw [h.1]; exact List.mem_cons_self _ _) hv
  | cons c us ih =>
    intro v a b hu hv h
    cases v with
    | nil =>
      simp only [List.cons_append, List.nil_append, List.cons.injEq] at h
      exact absurd (by rw [← h.1]; exact List.mem_cons_self _ _) hu
    | cons d vs =>
      simp only [List.cons_append, List.cons.injEq] at h
      have hu2 : '.' ∉ us := fun hm => hu (List.mem_cons_of_mem _ hm)
      have hv2 : '.' ∉ vs := fun hm => hv (List.mem_cons_of_mem _ hm)
      have := ih vs a b hu2 hv2 h.2
      exact ⟨by rw [h.1, this.1], this.2⟩

theorem mkVer_data (base : String) (v : Int) :
    (mkVer base v).data = base.data ++ '.' :: (pyStrInt v).data := by
  unfold mkVer
  rw [String.data_append, String.data_append, List.append_assoc]
  rfl

theorem dot_mem_mkVer_data (base : String) (v : Int) : '.' ∈ (mkVer base v).data := by
  rw [mkVer_data]
  exact List.mem_append.mpr (Or.inr (List.mem_cons_self _ _))

theorem ne_mkVer_of_dot_not_mem {x : String} (hdot : '.' ∉ x.data) (base : String) (v : Int) :
    x ≠ mkVer base v := by
  intro h
  exact hdot (h ▸ dot_mem_mkVer_data base v)

theorem mkVer_ne_of_base_ne {base x : String} (hbx : base ≠ x) (hdot : '.' ∉ x.data)
    (v : Int) (m : Nat) : mkVer base v ≠ mkVer x (m : Int) := by
  intro h
  have hdata : base.data ++ '.' :: (pyStrInt v).data
      = x.data ++ '.' :: (pyStrInt (m : Int)).data := by
    rw [← mkVer_data, ← mkVer_data, h]
  have hcnt : (base.data ++ '.' :: (pyStrInt v).data).count '.'
      = (x.data ++ '.' :: (pyStrInt (m : Int)).data).count '.' := by rw [hdata]
  have hx0 : x.data.count '.' = 0 := List.count_eq_zero.mpr hdot
  have hv0 : (pyStrInt v).data.count '.' = 0 :=
    List.count_eq_zero.mpr (dot_not_mem_pyStrInt v)
  have hm0 : (pyStrInt (m : Int)).data.count '.' = 0 :=
    List.count_eq_zero.mpr (dot_not_mem_pyStrInt (m : Int))
  have hb0 : base.data.count '.' = 0 := by
    rw [List.count_append, List.count_cons] at hcnt
    rw [List.count_append, List.count_cons] at hcnt
    simp [hx0, hv0, hm0] at hcnt
    exact hcnt
  have hbase_dot : '.' ∉ base.data := List.count_eq_zero.mp hb0
  have := firstDot_inj base.data x.data (pyStrInt v).data (pyStrInt (m : Int)).data
    hbase_dot hdot hdata
  exact hbx (String.ext this.1)

theorem mkVer_inj_nat {x : String} {m k : Nat}
    (h : mkVer x (m : Int) = mkVer x (k : Int)) : m = k := by
  have hdata : x.data ++ '.' :: (pyStrInt (m : Int)).data
      = x.data ++ '.' :: (pyStrInt (k : Int)).data := by
    rw [← mkVer_data, ← mkVer_data, h]
  have h2 := List.append_cancel_left hdata
  have h3 : (pyStrInt (m : Int)).data = (pyStrInt (k : Int)).data := by
    injection h2
  have h4 : pyStrInt (m : Int) = pyStrInt (k : Int) := String.ext h3
  rw [pyStrInt_natCast, pyStrInt_natCast] at h4
  exact pyStrNat_inj h4

theorem findFresh_spec (x : String) (idSet : List String) (t : Nat)
    (hiff : ∀ m : Nat, 1 ≤ m → (mkVer x (m : Int) ∈ idSet ↔ m ≤ t)) :
    ∀ fuel (v : Nat), 1 ≤ v → v ≤ t + 1 → t + 1 - v < fuel →
      findFresh x idSet (v : Int) fuel = ((t + 1 : Nat) : Int) := by
  intro fuel
  induction fuel with
  | zero => intro v _ _ h3; omega
  | succ f ih =>
    intro v h1 h2 h3
    by_cases hv : v ≤ t
    · have hmem : mkVer x (v : Int) ∈ idSet := (hiff v h1).mpr hv
      simp only [findFresh, if_pos hmem]
      have hcast : ((v : Int) + 1) = ((v + 1 : Nat) : Int) := by push_cast; ring
      rw [hcast]
      exact ih (v + 1) (by omega) (by omega) (by omega)
    · have hveq : v = t + 1 := by omega
      have hnmem : mkVer x (v : Int) ∉ idSet := by
        intro hmem
        have := (hiff v h1).mp hmem
        omega
      simp only [findFresh, if_neg hnmem]
      rw [hveq]

theorem renameOne_dotfree (idSet : List String) (name : String) (hdot : '.' ∉ name.data) :
    renameOne idSet name
      = Except.ok (mkVer name (findFresh name idSet 1 (idSet.length + 1))) := by
  unfold renameOne rsplitDot
  rw [(splitLastDot_none_iff name.toList).mpr hdot]

theorem renameOne_not_xspace {x : String} (hdot : '.' ∉ x.data)
    {idSet : List String} {name newName : String}
    (hnx : name ≠ x)
    (hnp : ¬ ∃ r, name.data = x.data ++ '.' :: r)
    (h : renameOne idSet name = Except.ok newName) :
    (∀ m : Nat, newName ≠ mkVer x (m : Int)) ∧ '.' ∈ newName.data := by
  unfold renameOne rsplitDot at h
  cases hsplit : splitLastDot name.toList with
  | none =>
    rw [hsplit] at h
    simp only [Except.ok.injEq] at h
    subst h
    exact ⟨fun m => mkVer_ne_of_base_ne hnx hdot _ m, dot_mem_mkVer_data _ _⟩
  | some p =>
    rcases p with ⟨b, sfx⟩
    rw [hsplit] at h
    dsimp only at h
    cases hparse : pyParseInt (String.mk sfx) with
    | none =>
      rw [hparse] at h
      exact absurd h (by simp)
    | some n =>
      rw [hparse] at h
      simp only [Except.ok.injEq] at h
      subst h
      have hrs := splitLastDot_some name.toList b sfx hsplit
      have hbx : String.mk b ≠ x := by
        intro hbeq
        apply hnp
        refine ⟨sfx, ?_⟩
        have hdata : name.data = b ++ '.' :: sfx := hrs.1
        rw [hdata, ← hbeq]
      exact ⟨fun m => mkVer_ne_of_base_ne hbx hdot _ m, dot_mem_mkVer_data _ _⟩

theorem versionLoop_x_spec (col : List String) (x : String)
    (hdot : '.' ∉ x.data)
    (hdupx : vidIsDup col none x = true)
    (hpref : ∀ y ∈ col, y ≠ x → ¬ ∃ r, y.data = x.data ++ '.' :: r) :
    ∀ (s idSet : List String) (t : Nat) (out : List String),
      (∀ y ∈ s, y ∈ col) →
      (∀ m : Nat, 1 ≤ m → (mkVer x (m : Int) ∈ idSet ↔ m ≤ t)) →
      t ≤ idSet.length →
      versionLoop (vidIsDup col none) idSet s = Except.ok out →
      out.length = s.length ∧ x ∉ out ∧
        ∀ i (hi : i < s.length) (hio : i < out.length),
          s.get ⟨i, hi⟩ = x →
          out.get ⟨i, hio⟩ = mkVer x (((t + (s.take (i + 1)).count x : Nat)) : Int) := by
  intro s
  induction s with
  | nil =>
    intro idSet t out _ _ _ hout
    simp only [versionLoop, Except.ok.injEq] at hout
    subst hout
    refine ⟨rfl, by simp, ?_⟩
    intro i hi
    simp at hi
  | cons name rest ih =>
    intro idSet t out hmem hiff hlen hout
    unfold versionLoop at hout
    by_cases hd : vidIsDup col none name = true
    · rw [if_pos hd] at hout
      cases hren : renameOne idSet name with
      | error e =>
        rw [hren] at hout
        exact absurd hout (by simp)
      | ok newName =>
        rw [hren] at hout
        dsimp only at hout
        cases hloop : versionLoop (vidIsDup col none) (newName :: idSet) rest with
        | error e =>
          rw [hloop] at hout
          exact absurd hout (by simp)
        | ok tail =>
          rw [hloop] at hout
          simp only [Except.ok.injEq] at hout
          subst hout
          have hrestmem : ∀ y ∈ rest, y ∈ col :=
            fun y hy => hmem y (List.mem_cons_of_mem _ hy)
          by_cases hnx : name = x
          · -- the tracked ID itself: it gets version t + 1
            subst hnx
            have hone : renameOne idSet name
                = Except.ok (mkVer name (findFresh name idSet 1 (idSet.length + 1))) :=
              renameOne_dotfree idSet name hdot
            have hfresh : findFresh name idSet (1 : Int) (idSet.length + 1)
                = ((t + 1 : Nat) : Int) := by
              have h1 : ((1 : Nat) : Int) = (1 : Int) := by norm_num
              rw [← h1]
              exact findFresh_spec name idSet t hiff (idSet.length + 1) 1 (by omega)
                (by omega) (by omega)
            have hnew : newName = mkVer name ((t + 1 : Nat) : Int) := by
              rw [hren] at hone
              simp only [Except.ok.injEq] at hone
              rw [hone, hfresh]
            have hiff2 : ∀ m : Nat, 1 ≤ m →
                (mkVer name (m : Int) ∈ newName :: idSet ↔ m ≤ t + 1) := by
              intro m hm
              constructor
              · intro hmm
                rcases List.mem_cons.mp hmm with h1 | h2
                · rw [hnew] at h1
                  have := mkVer_inj_nat h1
                  omega
                · have := (hiff m hm).mp h2
                  omega
              · intro hmle
                by_cases hmt : m ≤ t
                · exact List.mem_cons_of_mem _ ((hiff m hm).mpr hmt)
                · have : m = t + 1 := by omega
                  subst this
                  rw [← hnew]
                  exact List.mem_cons_self _ _
            have hIH := ih (newName :: idSet) (t + 1) tail hrestmem hiff2
              (by simp; omega) hloop
            refine ⟨by simp [hIH.1], ?_, ?_⟩
            · intro hxout
              rcases List.mem_cons.mp hxout with h1 | h2
              · exact ne_mkVer_of_dot_not_mem hdot _ _ (h1.trans hnew)
              · exact hIH.2.1 h2
            · intro i hi hio hx
              match i with
              | 0 =>
                simp only [List.get]
                rw [hnew]
                congr 1
                simp [List.count_cons]
              | Nat.succ j =>
                simp only [List.get] at hx ⊢
                have hj : j < rest.length := by simpa using hi
                have hjo : j < tail.length := by simpa using hio
                have := hIH.2.2 j hj hjo hx
                rw [this]
                congr 1
                have hcnt : ((name :: rest).take (j + 1 + 1)).count name
                    = (rest.take (j + 1)).count name + 1 := by
                  simp [List.count_cons]
                push_cast
                rw [hcnt]
                push_cast
                ring
          · -- a different duplicated name: its new version never enters the x-space
            have hnmem : name ∈ col := hmem name (List.mem_cons_self _ _)
            have hnp := hpref name hnmem hnx
            have hxsp := renameOne_not_xspace hdot hnx hnp hren
            have hiff2 : ∀ m : Nat, 1 ≤ m →
                (mkVer x (m : Int) ∈ newName :: idSet ↔ m ≤ t) := by
              intro m hm
              constructor
              · intro hmm
                rcases List.mem_cons.mp hmm with h1 | h2
                · exact absurd h1.symm (hxsp.1 m)
                · exact (hiff m hm).mp h2
              · intro hmle
                exact List.mem_cons_of_mem _ ((hiff m hm).mpr hmle)
            have hIH := ih (newName :: idSet) t tail hrestmem hiff2
              (by simp; omega) hloop
            refine ⟨by simp [hIH.1], ?_, ?_⟩
            · intro hxout
              rcases List.mem_cons.mp hxout with h1 | h2
              · rw [h1] at hdot
                exact hdot hxsp.2
              · exact hIH.2.1 h2
            · intro i hi hio hx
              match i with
              | 0 => exact absurd hx hnx
              | Nat.succ j =>
                simp only [List.get] at hx ⊢
                have hj : j < rest.length := by simpa using hi
                have hjo : j < tail.length := by simpa using hio
                have := hIH.2.2 j hj hjo hx
                rw [this]
                have hcnt : List.count x (List.take (j + 1 + 1) (name :: rest))
                    = List.count x (List.take (j + 1) rest) := by
                  simp [List.count_cons, hnx]
                rw [hcnt]
    · rw [if_neg hd] at hout
      cases hloop : versionLoop (vidIsDup col none) idSet rest with
      | error e =>
        rw [hloop] at hout
        exact absurd hout (by simp)
      | ok tail =>
        rw [hloop] at hout
        simp only [Except.ok.injEq] at hout
        subst hout
        have hrestmem : ∀ y ∈ rest, y ∈ col :=
          fun y hy => hmem y (List.mem_cons_of_mem _ hy)
        have hnx : name ≠ x := by
          intro hcontra
          rw [hcontra] at hd
          exact hd hdupx
        have hIH := ih idSet t tail hrestmem hiff hlen hloop
        refine ⟨by simp [hIH.1], ?_, ?_⟩
        · intro hxout
          rcases List.mem_cons.mp hxout with h1 | h2
          · exact hnx h1.symm
          · exact hIH.2.1 h2
        · intro i hi hio hx
          match i with
          | 0 => exact absurd hx hnx
          | Nat.succ j =>
            simp only [List.get] at hx ⊢
            have hj : j < rest.length := by simpa using hi
            have hjo : j < tail.length := by simpa using hio
            have := hIH.2.2 j hj hjo hx
            rw [this]
            have hcnt : List.count x (List.take (j + 1 + 1) (name :: rest))
                = List.count x (List.take (j + 1) rest) := by
              simp [List.count_cons, hnx]
            rw [hcnt]

/-- Claim C10 (amended): when an ID `x` without a version suffix occurs at
least twice in the column, no existing-ID set is supplied, no other column
entry starts with `x` followed by a dot, and `version_id` succeeds, then
every occurrence of `x` is renamed, including the first: in column order the
occurrences become `x.1`, ..., `x.k`, and the unsuffixed `x` does not appear
in the output at all. -/
theorem version_id_dup_renames_every_occurrence (col : List String) (x : String)
    (out : List String)
    (hdot : '.' ∉ x.data)
    (hk : 2 ≤ col.count x)
    (hpref : ∀ y ∈ col, y ≠ x → ¬ ∃ r, y.data = x.data ++ '.' :: r)
    (hout : version_id col none = Except.ok out) :
    out.length = col.length ∧ x ∉ out ∧
      ∀ i (hi : i < col.length) (hio : i < out.length),
        col.get ⟨i, hi⟩ = x →
        out.get ⟨i, hio⟩ = mkVer x (((col.take (i + 1)).count x : Nat) : Int) := by
  have hdupx : vidIsDup col none x = true := by
    unfold vidIsDup
    simp only [decide_eq_true_eq]
    unfold vidCount
    simpa using hk
  have hxmem : x ∈ col := List.count_pos_iff.mp (by omega)
  have hany : (col.any fun y => vidIsDup col none y) = true :=
    List.any_eq_true.mpr ⟨x, hxmem, hdupx⟩
  unfold version_id at hout
  rw [if_pos hany] at hout
  have hinit : ∀ m : Nat, 1 ≤ m → (mkVer x (m : Int) ∈ vidInitSet col none ↔ m ≤ 0) := by
    intro m hm
    constructor
    · intro hmem2
      exfalso
      unfold vidInitSet at hmem2
      dsimp only at hmem2
      rw [List.append_nil] at hmem2
      have hmf := List.mem_filter.mp hmem2
      have hne : mkVer x (m : Int) ≠ x := Ne.symm (ne_mkVer_of_dot_not_mem hdot x (m : Int))
      exact hpref _ hmf.1 hne ⟨(pyStrInt (m : Int)).data, mkVer_data x (m : Int)⟩
    · intro h
      omega
  have hfin := versionLoop_x_spec col x hdot hdupx hpref col (vidInitSet col none) 0 out
    (fun y hy => hy) hinit (Nat.zero_le _) hout
  refine ⟨hfin.1, hfin.2.1, ?_⟩
  intro i hi hio hx
  have := hfin.2.2 i hi hio hx
  simpa using this

/-- Witness for the amended C10 on the column `["v", "v", "w"]`: both
occurrences of `"v"` are renamed, to `"v.1"` and `"v.2"`. -/
theorem version_id_dup_renames_every_occurrence_witness :
    (["v.1", "v.2", "w"] : List String).length = (["v", "v", "w"] : List String).length ∧
      "v" ∉ (["v.1", "v.2", "w"] : List String) ∧
      ∀ i (hi : i < (["v", "v", "w"] : List String).length)
        (hio : i < (["v.1", "v.2", "w"] : List String).length),
        (["v", "v", "w"] : List String).get ⟨i, hi⟩ = "v" →
        (["v.1", "v.2", "w"] : List String).get ⟨i, hio⟩
          = mkVer "v" (((["v", "v", "w"].take (i + 1)).count "v" : Nat) : Int) :=
  version_id_dup_renames_every_occurrence ["v", "v", "w"] "v" ["v.1", "v.2", "w"]
    (by decide) (by decide)
    (by
      intro y hy hne
      fin_cases hy
      · exact absurd rfl hne
      · exact absurd rfl hne
      · rintro ⟨r, hr⟩
        exact absurd hr (by simp))
    rfl

/-- Claim C4 counterexample: a one-row table whose SVLEN and SVTYPE columns
are both absent (END present; with no SVTYPE column no row has SVTYPE INS).
The claim requires SVLEN to be derived as END - POS for every row; the code
instead aborts because the derivation also demands the SVTYPE column. -/
theorem read_variant_table_defaults_counterexample :
    set_missing_defaults ⟨[⟨"chr1", 10, 20, "v1", "", 0⟩], true, false, false⟩
      = Except.error "Missing SVLEN: Need both SVTYPE and END to set automatically" := rfl

/-- Claim C4 (amended): in `read_variant_table`, when SVLEN is absent and both
END and SVTYPE are present, SVLEN is derived as END - POS for every row,
aborting when any row has (uppercased) SVTYPE INS; when SVLEN is absent and
END or SVTYPE is also absent, loading aborts; when SVTYPE alone is absent,
every row's SVTYPE defaults to RGN. -/
theorem read_variant_table_defaults (t : RawTable) :
    (t.hasSvlen = false → t.hasEnd = true → t.hasSvtype = true →
      (∀ r ∈ t.rows, pyUpper r.svtype ≠ "INS") →
      set_missing_defaults t = Except.ok { t with
        rows := t.rows.map (fun r => { r with svlen := r.endPos - r.pos }),
        hasSvlen := true })
    ∧ (t.hasSvlen = false → t.hasEnd = true → t.hasSvtype = true →
      (∃ r ∈ t.rows, pyUpper r.svtype = "INS") →
      ∃ e, set_missing_defaults t = Except.error e)
    ∧ (t.hasSvlen = false → (t.hasEnd = false ∨ t.hasSvtype = false) →
      ∃ e, set_missing_defaults t = Except.error e)
    ∧ (t.hasSvlen = true → t.hasSvtype = false →
      set_missing_defaults t = Except.ok { t with
        rows := t.rows.map (fun r => { r with svtype := "RGN" }),
        hasSvtype := true }) := by
  refine ⟨?_, ?_, ?_, ?_⟩
  · intro hsl he hst hins
    have hany : (t.rows.any fun r => pyUpper r.svtype = "INS") = false := by
      rw [List.any_eq_false]
      intro r hr
      simpa using hins r hr
    unfold set_missing_defaults
    rw [if_neg (by simp [hsl]), if_neg (by simp [he, hst]), if_neg (by simp [hany])]
    simp [hst]
  · intro hsl he hst hins
    have hany : (t.rows.any fun r => pyUpper r.svtype = "INS") = true := by
      rw [List.any_eq_true]
      obtain ⟨r, hr, hins2⟩ := hins
      exact ⟨r, hr, by simpa using hins2⟩
    refine ⟨"Missing SVLEN: Cannot compute for insertions (SVTYPE must not be INS for any record)",
      ?_⟩
    unfold set_missing_defaults
    rw [if_neg (by simp [hsl]), if_neg (by simp [he, hst]), if_pos (by simp [hany])]
  · intro hsl hmiss
    refine ⟨"Missing SVLEN: Need both SVTYPE and END to set automatically", ?_⟩
    unfold set_missing_defaults
    rw [if_neg (by simp [hsl]), if_pos (by rcases hmiss with h | h <;> simp [h])]
  · intro hsl hst
    unfold set_missing_defaults
    rw [if_pos (by simp [hsl])]
    simp [hst]

/-- Witness for the amended C4: SVLEN derived as END - POS on a one-row DEL
table, and SVTYPE defaulted to RGN on a one-row table without SVTYPE. -/
theorem read_variant_table_defaults_witness :
    set_missing_defaults ⟨[⟨"chr1", 10, 20, "v1", "DEL", 0⟩], true, true, false⟩
      = Except.ok ⟨[⟨"chr1", 10, 20, "v1", "DEL", 10⟩], true, true, true⟩ := by
  have h := (read_variant_table_defaults
      ⟨[⟨"chr1", 10, 20, "v1", "DEL", 0⟩], true, true, false⟩).1
    rfl rfl rfl (by intro r hr; fin_cases hr; decide)
  exact h

/-- Claim C3 (code evaluation at the failing input): supplying `na` (or
`unlimited`) as the sixth (map-limit) field of `match` does not clear the
MAP-LIMIT parameter; `get_param_set` raises a type-mismatch error instead,
because the source tests `tok.lower in ("na", "unlimited")` without calling
the method, so the test never succeeds and `int("na")` is attempted. -/
theorem get_param_set_map_limit_na_errors :
    get_param_set (some "match=,,,,,na")
      = Except.error "Alignment parameter 5 in match type mismatch: Expected int: na"
    ∧ get_param_set (some "match=,,,,,unlimited")
      = Except.error "Alignment parameter 5 in match type mismatch: Expected int: unlimited" :=
  ⟨rfl, rfl⟩

theorem roHandler_szro {ps ps2 : ParamSet} {val : Option String}
    (h : roHandler ps val = Except.ok ps2) : ps2.szro_min = ps.szro_min := by
  unfold roHandler at h
  repeat' split at h
  all_goals first
    | (simp only [Except.ok.injEq] at h; subst h; rfl)
    | simp at h

theorem szroHandler_ro {ps ps2 : ParamSet} {val : Option String}
    (h : szroHandler ps val = Except.ok ps2) : ps2.ro_min = ps.ro_min := by
  unfold szroHandler at h
  repeat' split at h
  all_goals first
    | (simp only [Except.ok.injEq] at h; subst h; rfl)
    | simp at h

theorem offsetHandler_roszro {ps ps2 : ParamSet} {val : Option String}
    (h : offsetHandler ps val = Except.ok ps2) :
    ps2.ro_min = ps.ro_min ∧ ps2.szro_min = ps.szro_min := by
  unfold offsetHandler at h
  repeat' split at h
  all_goals first
    | (simp only [Except.ok.injEq] at h; subst h; exact ⟨rfl, rfl⟩)
    | simp at h

theorem processMatchVal_roszro {ps ps2 : ParamSet} {val : Option String}
    (h : processMatchVal ps val = Except.ok ps2) :
    ps2.ro_min = ps.ro_min ∧ ps2.szro_min = ps.szro_min := by
  unfold processMatchVal at h
  dsimp only at h
  repeat' split at h
  all_goals first
    | (simp only [Except.ok.injEq] at h; subst h; exact ⟨rfl, rfl⟩)
    | simp at h

theorem processParamTok_fields {ps ps2 : ParamSet} {e : String}
    (h : processParamTok ps e = Except.ok ps2) :
    (ps2.ro_min = ps.ro_min ∨ (paramKeyVal (pyStrip e)).1 = "ro")
      ∧ (ps2.szro_min = ps.szro_min ∨ (paramKeyVal (pyStrip e)).1 = "szro") := by
  unfold processParamTok at h
  dsimp only at h
  by_cases h0 : pyStrip e = ""
  · rw [if_pos h0] at h
    simp only [Except.ok.injEq] at h
    subst h
    exact ⟨Or.inl rfl, Or.inl rfl⟩
  rw [if_neg h0] at h
  by_cases k1 : (paramKeyVal (pyStrip e)).1 = "ro"
  · rw [if_pos k1] at h
    exact ⟨Or.inr k1, Or.inl (roHandler_szro h)⟩
  rw [if_neg k1] at h
  by_cases k2 : (paramKeyVal (pyStrip e)).1 = "szro"
  · rw [if_pos k2] at h
    exact ⟨Or.inl (szroHandler_ro h), Or.inr k2⟩
  rw [if_neg k2] at h
  by_cases k3 : (paramKeyVal (pyStrip e)).1 = "offset"
  · rw [if_pos k3] at h
    exact ⟨Or.inl (offsetHandler_roszro h).1, Or.inl (offsetHandler_roszro h).2⟩
  rw [if_neg k3] at h
  by_cases k4 : (paramKeyVal (pyStrip e)).1 = "refalt"
  · rw [if_pos k4] at h
    split at h
    · exact absurd h (by simp)
    · simp only [Except.ok.injEq] at h
      subst h
      exact ⟨Or.inl rfl, Or.inl rfl⟩
  rw [if_neg k4] at h
  by_cases k5 : (paramKeyVal (pyStrip e)).1 = "ref"
  · rw [if_pos k5] at h
    split at h
    · exact absurd h (by simp)
    · simp only [Except.ok.injEq] at h
      subst h
      exact ⟨Or.inl rfl, Or.inl rfl⟩
  rw [if_neg k5] at h
  by_cases k6 : (paramKeyVal (pyStrip e)).1 = "alt"
  · rw [if_pos k6] at h
    split at h
    · exact absurd h (by simp)
    · simp only [Except.ok.injEq] at h
      subst h
      exact ⟨Or.inl rfl, Or.inl rfl⟩
  rw [if_neg k6] at h
  by_cases k7 : (paramKeyVal (pyStrip e)).1 = "expand"
  · rw [if_pos k7] at h
    split at h
    · exact absurd h (by simp)
    · simp only [Except.ok.injEq] at h
      subst h
      exact ⟨Or.inl rfl, Or.inl rfl⟩
  rw [if_neg k7] at h
  by_cases k8 : (paramKeyVal (pyStrip e)).1 = "match"
  · rw [if_pos k8] at h
    exact ⟨Or.inl (processMatchVal_roszro h).1, Or.inl (processMatchVal_roszro h).2⟩
  rw [if_neg k8] at h
  exact absurd h (by simp)

theorem processParamTok_szro_set {ps ps2 : ParamSet} {e v : String} {n : Int}
    (hkey : (paramKeyVal (pyStrip e)).1 = "szro")
    (hval : (paramKeyVal (pyStrip e)).2 = some v)
    (hany : v ≠ "any")
    (hparse : pyParseInt (pyStrip v) = some n)
    (h : processParamTok ps e = Except.ok ps2) :
    ps2.szro_min = some ((n : ℚ) / 100) := by
  unfold processParamTok at h
  dsimp only at h
  have hne : pyStrip e ≠ "" := by
    intro h0
    rw [h0] at hkey
    exact absurd hkey (by decide)
  rw [if_neg hne] at h
  rw [if_neg (by rw [hkey]; decide)] at h
  rw [if_pos hkey] at h
  unfold szroHandler at h
  rw [hval] at h
  dsimp only at h
  rw [if_pos hany] at h
  rw [hparse] at h
  dsimp only at h
  split at h
  · exact absurd h (by simp)
  · simp only [Except.ok.injEq] at h
    subst h
    rfl

theorem processParamToks_append (a : List String) :
    ∀ (ps : ParamSet) (b : List String),
      processParamToks ps (a ++ b)
        = match processParamToks ps a with
          | Except.error e => Except.error e
          | Except.ok psm => processParamToks psm b := by
  induction a with
  | nil => intro ps b; rfl
  | cons e rest ih =>
    intro ps b
    simp only [List.cons_append, processParamToks]
    cases h : processParamTok ps e with
    | error err => rfl
    | ok psx => exact ih psx b

theorem processParamToks_ro_preserved : ∀ (toks : List String) (ps ps2 : ParamSet),
    (∀ e ∈ toks, (paramKeyVal (pyStrip e)).1 ≠ "ro") →
    processParamToks ps toks = Except.ok ps2 → ps2.ro_min = ps.ro_min := by
  intro toks
  induction toks with
  | nil =>
    intro ps ps2 _ h
    simp only [processParamToks, Except.ok.injEq] at h
    subst h
    rfl
  | cons e rest ih =>
    intro ps ps2 hno h
    unfold processParamToks at h
    cases hstep : processParamTok ps e with
    | error err =>
      rw [hstep] at h
      exact absurd h (by simp)
    | ok psx =>
      rw [hstep] at h
      have h1 := (processParamTok_fields hstep).1.resolve_right (hno e (List.mem_cons_self _ _))
      have h2 := ih psx ps2 (fun u hu => hno u (List.mem_cons_of_mem _ hu)) h
      rw [h2, h1]

theorem processParamToks_szro_preserved : ∀ (toks : List String) (ps ps2 : ParamSet),
    (∀ e ∈ toks, (paramKeyVal (pyStrip e)).1 ≠ "szro") →
    processParamToks ps toks = Except.ok ps2 → ps2.szro_min = ps.szro_min := by
  intro toks
  induction toks with
  | nil =>
    intro ps ps2 _ h
    simp only [processParamToks, Except.ok.injEq] at h
    subst h
    rfl
  | cons e rest ih =>
    intro ps ps2 hno h
    unfold processParamToks at h
    cases hstep : processParamTok ps e with
    | error err =>
      rw [hstep] at h
      exact absurd h (by simp)
    | ok psx =>
      rw [hstep] at h
      have h1 := (processParamTok_fields hstep).2.resolve_right (hno e (List.mem_cons_self _ _))
      have h2 := ih psx ps2 (fun u hu => hno u (List.mem_cons_of_mem _ hu)) h
      rw [h2, h1]

theorem finalizeParamSet_ro_of_none {ps0 ps : ParamSet}
    (hro : ps0.ro_min = none) (hok : finalizeParamSet ps0 = Except.ok ps) :
    ps.ro_min = ps0.szro_min ∧ ps.szro_min = ps0.szro_min := by
  unfold finalizeParamSet at hok
  split at hok
  · exact absurd hok (by simp)
  · dsimp only at hok
    by_cases hc : ps0.ro_min = none ∧ ps0.szro_min ≠ none
    · rw [if_pos hc] at hok
      cases hap : ps0.align_param with
      | none =>
        rw [show ({ ps0 with ro_min := ps0.szro_min } : ParamSet).align_param
            = ps0.align_param from rfl, hap] at hok
        dsimp only at hok
        simp only [Except.ok.injEq] at hok
        subst hok
        exact ⟨rfl, rfl⟩
      | some ap =>
        rw [show ({ ps0 with ro_min := ps0.szro_min } : ParamSet).align_param
            = ps0.align_param from rfl, hap] at hok
        dsimp only at hok
        simp only [Except.ok.injEq] at hok
        subst hok
        exact ⟨rfl, rfl⟩
    · rw [if_neg hc] at hok
      have hsz : ps0.szro_min = none := by
        by_contra hc2
        exact hc ⟨hro, hc2⟩
      cases hap : ps0.align_param with
      | none =>
        rw [hap] at hok
        dsimp only at hok
        simp only [Except.ok.injEq] at hok
        subst hok
        exact ⟨by rw [hro, hsz], rfl⟩
      | some ap =>
        rw [hap] at hok
        dsimp only at hok
        simp only [Except.ok.injEq] at hok
        subst hok
        exact ⟨by rw [hro, hsz], rfl⟩

/-- Claim C7: for a merge parameter string in which `szro` is supplied with
an integer value `n` (its last `szro` token), `ro` is never supplied, and
`get_param_set` succeeds, the returned parameter set has
`ro_min = n / 100 = szro_min`, so the RO phase runs with the szro threshold. -/
theorem get_param_set_szro_sets_ro (s : String) (ps : ParamSet)
    (l1 l2 : List String) (tk v : String) (n : Int)
    (hsplit : paramElements s = l1 ++ tk :: l2)
    (hkey : (paramKeyVal (pyStrip tk)).1 = "szro")
    (hval : (paramKeyVal (pyStrip tk)).2 = some v)
    (hany : v ≠ "any")
    (hparse : pyParseInt (pyStrip v) = some n)
    (hnoro : ∀ e ∈ paramElements s, (paramKeyVal (pyStrip e)).1 ≠ "ro")
    (hl2 : ∀ e ∈ l2, (paramKeyVal (pyStrip e)).1 ≠ "szro")
    (hok : get_param_set (some s) = Except.ok ps) :
    ps.ro_min = some ((n : ℚ) / 100) ∧ ps.szro_min = some ((n : ℚ) / 100) := by
  unfold get_param_set at hok
  dsimp only at hok
  cases hrun : processParamToks initParamSet (paramElements s) with
  | error e =>
    rw [hrun] at hok
    exact absurd hok (by simp)
  | ok ps0 =>
    rw [hrun] at hok
    have hro0 : ps0.ro_min = none :=
      processParamToks_ro_preserved (paramElements s) initParamSet ps0 hnoro hrun
    rw [hsplit, processParamToks_append] at hrun
    cases h1 : processParamToks initParamSet l1 with
    | error e =>
      rw [h1] at hrun
      exact absurd hrun (by simp)
    | ok psA =>
      rw [h1] at hrun
      dsimp only at hrun
      unfold processParamToks at hrun
      cases h2 : processParamTok psA tk with
      | error err =>
        rw [h2] at hrun
        exact absurd hrun (by simp)
      | ok psB =>
        rw [h2] at hrun
        have hszB : psB.szro_min = some ((n : ℚ) / 100) :=
          processParamTok_szro_set hkey hval hany hparse h2
        have hsz0 : ps0.szro_min = psB.szro_min :=
          processParamToks_szro_preserved l2 psB ps0 hl2 hrun
        have hfin := finalizeParamSet_ro_of_none hro0 hok
        rw [hfin.1, hfin.2, hsz0, hszB]
        exact ⟨rfl, rfl⟩

/-- Witness for C7 at the parameter string `szro=50:offset=200`. -/
theorem get_param_set_szro_sets_ro_witness :
    ∃ ps : ParamSet, get_param_set (some "szro=50:offset=200") = Except.ok ps
      ∧ ps.ro_min = some (((50 : Int) : ℚ) / 100)
      ∧ ps.szro_min = some (((50 : Int) : ℚ) / 100) := by
  refine ⟨⟨some ((1 : ℚ) / 2), some ((1 : ℚ) / 2), some 200,
    false, false, false, false, none, none, false⟩, by with_unfolding_all rfl, ?_⟩
  exact get_param_set_szro_sets_ro "szro=50:offset=200" _ [] ["offset=200"] "szro=50" "50" 50
    rfl rfl rfl (by decide) rfl (by decide) (by decide) (by with_unfolding_all rfl)

theorem cmpv_eq {α : Type} [LinearOrder α] {a b : α} (h : cmpv a b = Ordering.eq) : a = b := by
  unfold cmpv at h
  split at h
  · exact absurd h (by simp)
  · split at h
    · exact absurd h (by simp)
    · exact le_antisymm (le_of_not_lt (by assumption)) (le_of_not_lt (by assumption))

theorem then_eq {x y : Ordering} (h : x.then y = Ordering.eq) :
    x = Ordering.eq ∧ y = Ordering.eq := by
  cases x <;> simp [Ordering.then] at h <;> simp [h]

theorem keyCmp_eq {mr ma ms : Bool} {a b : ERow}
    (h : keyCmp mr ma ms b a = Ordering.eq) : keyEqE mr ma ms a b := by
  unfold keyCmp at h
  obtain ⟨h1, h⟩ := then_eq h
  obtain ⟨h2, h⟩ := then_eq h
  obtain ⟨h3, h⟩ := then_eq h
  obtain ⟨h4, h⟩ := then_eq h
  obtain ⟨h5, h6⟩ := then_eq h
  refine ⟨(cmpv_eq h1).symm, (cmpv_eq h2).symm, (cmpv_eq h3).symm, ?_, ?_, ?_⟩
  · intro hmr
    rw [hmr] at h4
    rw [if_pos rfl] at h4
    exact (cmpv_eq h4).symm
  · intro hma
    rw [hma] at h5
    rw [if_pos rfl] at h5
    exact (cmpv_eq h5).symm
  · intro hms
    rw [hms] at h6
    rw [if_pos rfl] at h6
    exact (cmpv_eq h6).symm

theorem exact_loop_mem (mr ma ms : Bool) : ∀ (n : Nat) (xs ys : List ERow),
    xs.length + ys.length ≤ n →
    ∀ m ∈ get_support_table_exact_loop mr ma ms xs ys,
      m.offset = 0 ∧ m.ro = 1 ∧ m.szro = 1 ∧ m.offsz = 0
        ∧ m.matchProp = (if ms then some 1 else none)
        ∧ ∃ a ∈ xs, ∃ b ∈ ys, m.id = a.id ∧ m.target_id = b.id ∧ keyEqE mr ma ms a b := by
  intro n
  induction n with
  | zero =>
    intro xs ys hlen m hm
    have hx : xs = [] := by
      cases xs with
      | nil => rfl
      | cons a l => simp at hlen
    subst hx
    simp [get_support_table_exact_loop] at hm
  | succ k ih =>
    intro xs ys hlen m hm
    match xs, ys with
    | [], ys => simp [get_support_table_exact_loop] at hm
    | a :: xs, [] => simp [get_support_table_exact_loop] at hm
    | a :: xs, b :: ys =>
      rw [get_support_table_exact_loop] at hm
      cases hc : keyCmp mr ma ms b a with
      | lt =>
        rw [hc] at hm
        simp only at hm
        have hrec := ih (a :: xs) ys (by simp at hlen ⊢; omega) m hm
        obtain ⟨p1, p2, p3, p4, p5, aa, haa, bb, hbb, rest⟩ := hrec
        exact ⟨p1, p2, p3, p4, p5, aa, haa, bb, List.mem_cons_of_mem _ hbb, rest⟩
      | gt =>
        rw [hc] at hm
        simp only at hm
        have hrec := ih xs (b :: ys) (by simp at hlen ⊢; omega) m hm
        obtain ⟨p1, p2, p3, p4, p5, aa, haa, bb, hbb, rest⟩ := hrec
        exact ⟨p1, p2, p3, p4, p5, aa, List.mem_cons_of_mem _ haa, bb, hbb, rest⟩
      | eq =>
        rw [hc] at hm
        simp only [List.mem_cons] at hm
        rcases hm with hm | hm
        · subst hm
          exact ⟨rfl, rfl, rfl, rfl, rfl,
            a, List.mem_cons_self _ _, b, List.mem_cons_self _ _, rfl, rfl, keyCmp_eq hc⟩
        · have hrec := ih xs ys (by simp at hlen ⊢; omega) m hm
          obtain ⟨p1, p2, p3, p4, p5, aa, haa, bb, hbb, rest⟩ := hrec
          exact ⟨p1, p2, p3, p4, p5, aa, List.mem_cons_of_mem _ haa,
            bb, List.mem_cons_of_mem _ hbb, rest⟩

/-- Claim C6: every row emitted by the exact matcher carries
`OFFSET = 0, RO = 1, SZRO = 1, OFFSZ = 0` and `MATCH = 1.0` exactly when
`match_seq` is set (NaN otherwise), and pairs a `df` row with a `df_next` row
whose composite keys (chrom, pos, svlen, extended by REF/ALT/SEQ for the set
flags) are equal; and one loop step advances only the `df_next` pointer when
its row compares below, only the `df` pointer when it compares above, and
both pointers on a match. -/
theorem get_support_table_exact_spec (mr ma ms : Bool) :
    (∀ (df df_next : List ERow), ∀ m ∈ get_support_table_exact mr ma ms df df_next,
      m.offset = 0 ∧ m.ro = 1 ∧ m.szro = 1 ∧ m.offsz = 0
        ∧ m.matchProp = (if ms then some 1 else none)
        ∧ ∃ a ∈ df, ∃ b ∈ df_next, m.id = a.id ∧ m.target_id = b.id ∧ keyEqE mr ma ms a b)
    ∧ (∀ (a b : ERow) (xs ys : List ERow),
      get_support_table_exact_loop mr ma ms (a :: xs) (b :: ys) =
        match keyCmp mr ma ms b a with
        | Ordering.lt => get_support_table_exact_loop mr ma ms (a :: xs) ys
        | Ordering.gt => get_support_table_exact_loop mr ma ms xs (b :: ys)
        | Ordering.eq =>
          ⟨a.id, b.id, 0, 1, 1, 0, if ms then some 1 else none⟩ ::
            get_support_table_exact_loop mr ma ms xs ys) := by
  constructor
  · intro df df_next m hm
    unfold get_support_table_exact at hm
    have hrec := exact_loop_mem mr ma ms
      ((List.insertionSort (exactSortLe mr ma ms) df).length
        + (List.insertionSort (exactSortLe mr ma ms) df_next).length)
      (List.insertionSort (exactSortLe mr ma ms) df)
      (List.insertionSort (exactSortLe mr ma ms) df_next)
      (le_refl _) m hm
    obtain ⟨p1, p2, p3, p4, p5, aa, haa, bb, hbb, rest⟩ := hrec
    exact ⟨p1, p2, p3, p4, p5,
      aa, (List.perm_insertionSort _ df).mem_iff.mp haa,
      bb, (List.perm_insertionSort _ df_next).mem_iff.mp hbb, rest⟩
  · intro a b xs ys
    rw [get_support_table_exact_loop]

/-- Witness for C6: the match row emitted for two concrete one-row tables
with equal keys (`match_seq` unset). -/
theorem get_support_table_exact_spec_witness :
    (⟨"a1", "b1", 0, 1, 1, 0, none⟩ : MatchRow).offset = 0
      ∧ (⟨"a1", "b1", 0, 1, 1, 0, none⟩ : MatchRow).ro = 1
      ∧ (⟨"a1", "b1", 0, 1, 1, 0, none⟩ : MatchRow).szro = 1
      ∧ (⟨"a1", "b1", 0, 1, 1, 0, none⟩ : MatchRow).offsz = 0
      ∧ (⟨"a1", "b1", 0, 1, 1, 0, none⟩ : MatchRow).matchProp
          = (if false then some 1 else none)
      ∧ ∃ a ∈ [(⟨"chr1", 100, 10, "", "", "", "a1"⟩ : ERow)],
          ∃ b ∈ [(⟨"chr1", 100, 10, "", "", "", "b1"⟩ : ERow)],
          (⟨"a1", "b1", 0, 1, 1, 0, none⟩ : MatchRow).id = a.id
            ∧ (⟨"a1", "b1", 0, 1, 1, 0, none⟩ : MatchRow).target_id = b.id
            ∧ keyEqE false false false a b :=
  (get_support_table_exact_spec false false false).1
    [⟨"chr1", 100, 10, "", "", "", "a1"⟩] [⟨"chr1", 100, 10, "", "", "", "b1"⟩]
    ⟨"a1", "b1", 0, 1, 1, 0, none⟩
    (by
      unfold get_support_table_exact
      simp only [List.insertionSort, List.orderedInsert]
      rw [get_support_table_exact_loop]
      norm_num [keyCmp, cmpv, Ordering.then])

theorem dropDupFirst_filter {a k : Type} [DecidableEq k] (key : a → k) :
    ∀ (l : List a) (seen : List k) (c : k),
      (dropDupFirst key l seen).filter (fun x => key x = c)
        = if c ∈ seen then [] else (l.filter (fun x => key x = c)).take 1 := by
  intro l
  induction l with
  | nil =>
    intro seen c
    simp [dropDupFirst]
  | cons x l ih =>
    intro seen c
    unfold dropDupFirst
    by_cases hx : key x ∈ seen
    · rw [if_pos hx, ih]
      by_cases hc : c ∈ seen
      · simp [hc]
      · have hne : ¬ key x = c := fun h => hc (h ▸ hx)
        simp [hc, List.filter_cons, hne]
    · rw [if_neg hx]
      by_cases hxc : key x = c
      · subst hxc
        have hrec := ih (key x :: seen) (key x)
        rw [if_pos (List.mem_cons_self _ _)] at hrec
        simp [List.filter_cons, hrec, hx]
      · have hrec := ih (key x :: seen) c
        by_cases hc : c ∈ seen
        · rw [if_pos (List.mem_cons_of_mem _ hc)] at hrec
          simp [List.filter_cons, hrec, hxc, hc]
        · have hcx : c ∉ key x :: seen := by
            intro hmm
            rcases List.mem_cons.mp hmm with h | h
            · exact hxc h.symm
            · exact hc h
          rw [if_neg hcx] at hrec
          simp [List.filter_cons, hrec, hxc, hc]

/-- Claim C2: after the finalizer sorts the merged table by (SAMPLE asc,
SUPPORT_RO desc, SUPPORT_OFFSET asc, SUPPORT_SZRO desc, SUPPORT_OFFSZ desc,
SUPPORT_MATCH desc) and deduplicates on (SUPPORT_ID, SAMPLE,
SUPPORT_SAMPLE), the surviving rows with any given triple are exactly the
first row of that triple in the sorted order (hence at most one per
triple), and the sorted list is sorted under the finalizer order. -/
theorem finalize_sort_dedup_spec (sns : List String) (rows : List MergedRecord)
    (k : String × String × String) :
    (finalDedup sns rows).filter (fun r => trip r = k)
      = ((finalSort sns rows).filter (fun r => trip r = k)).take 1
    ∧ List.Sorted (finLe sns) (finalSort sns rows) := by
  constructor
  · unfold finalDedup
    rw [dropDupFirst_filter]
    simp
  · unfold finalSort
    haveI : IsTotal MergedRecord (finLe sns) := ⟨fun a b => le_total (finKey sns a) (finKey sns b)⟩
    haveI : IsTrans MergedRecord (finLe sns) := ⟨fun a b c hab hbc => le_trans hab hbc⟩
    exact List.sorted_insertionSort _ _

theorem dupList_eq_nil_iff (xs : List String) : dupList xs = [] ↔ xs.Nodup := by
  unfold dupList
  rw [List.filter_eq_nil_iff]
  constructor
  · intro h
    rw [List.nodup_iff_count_le_one]
    intro x
    by_cases hx : x ∈ xs
    · have := h x (List.mem_dedup.mpr hx)
      simp only [decide_eq_true_eq, not_lt] at this
      omega
    · rw [List.count_eq_zero.mpr hx]
      omega
  · intro h x hx
    simp only [decide_eq_true_eq, not_lt]
    exact List.nodup_iff_count_le_one.mp h x

/-- Claim C8: `merge_sample_by_support` errors out (producing no merged
table) whenever the support table holds two rows with the same SUPPORT_ID,
and when all SUPPORT_ID values are pairwise distinct the duplicate-lead
check passes: the result is exactly the joined and sorted merge, with no
duplicate-ID error raised. -/
theorem merge_sample_by_support_dup_check (support : List SummaryRow)
    (samples : List (String × List VRow)) :
    (¬ (support.map (fun s => s.support_id)).Nodup →
      ∃ msg, merge_sample_by_support support samples = Except.error msg)
    ∧ ((support.map (fun s => s.support_id)).Nodup →
      merge_sample_by_support support samples
        = match buildMerged support samples with
          | Except.error e => Except.error e
          | Except.ok l => Except.ok (List.insertionSort outLe l)) := by
  constructor
  · intro hdup
    have hne : dupList (support.map (fun s => s.support_id)) ≠ [] := by
      intro h0
      exact hdup ((dupList_eq_nil_iff _).mp h0)
    unfold merge_sample_by_support
    dsimp only
    rw [if_pos hne]
    exact ⟨_, rfl⟩
  · intro hnodup
    have heq : dupList (support.map (fun s => s.support_id)) = [] :=
      (dupList_eq_nil_iff _).mpr hnodup
    unfold merge_sample_by_support
    dsimp only
    rw [if_neg (by simp [heq])]

/-- Witness for C8: a support table with a duplicated SUPPORT_ID is
rejected. -/
theorem merge_sample_by_support_dup_check_witness :
    ∃ msg, merge_sample_by_support
      [⟨"v1", "S1", "v1", 1, "1.0000", "S1", "v1", "1.00", "0", "1.00", "1.00", "1.00"⟩,
       ⟨"v1", "S1", "v1", 1, "1.0000", "S1", "v1", "1.00", "0", "1.00", "1.00", "1.00"⟩]
      [] = Except.error msg :=
  (merge_sample_by_support_dup_check _ _).1 (by decide)

theorem insertionSort_all_le {α : Type} (r : α → α → Prop) [DecidableRel r] :
    ∀ (l : List α), (∀ a ∈ l, ∀ b ∈ l, r a b) → List.insertionSort r l = l := by
  intro l
  induction l with
  | nil => intro _; rfl
  | cons a l ih =>
    intro h
    have hrec : List.insertionSort r l = l :=
      ih (fun x hx y hy => h x (List.mem_cons_of_mem _ hx) y (List.mem_cons_of_mem _ hy))
    show List.orderedInsert r a (List.insertionSort r l) = a :: l
    rw [hrec]
    cases l with
    | nil => rfl
    | cons b t =>
      show List.orderedInsert r a (b :: t) = a :: b :: t
      unfold List.orderedInsert
      rw [if_pos (h a (List.mem_cons_self _ _) b (List.mem_cons_of_mem _ (List.mem_cons_self _ _)))]

theorem dropDupFirst_of_nodup {a k : Type} [DecidableEq k] (key : a → k) :
    ∀ (l : List a) (seen : List k), (l.map key).Nodup → (∀ x ∈ l, key x ∉ seen) →
      dropDupFirst key l seen = l := by
  intro l
  induction l with
  | nil => intro seen _ _; rfl
  | cons x l ih =>
    intro seen hnd hseen
    unfold dropDupFirst
    rw [if_neg (hseen x (List.mem_cons_self _ _))]
    congr 1
    apply ih
    · exact (List.nodup_cons.mp hnd).2
    · intro y hy
      intro hmem
      rcases List.mem_cons.mp hmem with h1 | h2
      · exact (List.nodup_cons.mp hnd).1 (h1 ▸ List.mem_map_of_mem key hy)
      · exact hseen y (List.mem_cons_of_mem _ hy) h2

theorem filter_key_singleton {a k : Type} [DecidableEq k] (key : a → k) :
    ∀ (l : List a) (x : a), (l.map key).Nodup → x ∈ l →
      l.filter (fun y => key y = key x) = [x] := by
  intro l
  induction l with
  | nil => intro x _ hx; simp at hx
  | cons b l ih =>
    intro x hnd hx
    have hnd2 := List.nodup_cons.mp hnd
    rcases List.mem_cons.mp hx with h1 | h2
    · subst h1
      rw [List.filter_cons, if_pos (by simp)]
      congr 1
      rw [List.filter_eq_nil_iff]
      intro y hy
      simp only [decide_eq_true_eq]
      intro hc
      exact hnd2.1 (hc ▸ List.mem_map_of_mem key hy)
    · have hne : key b ≠ key x := by
        intro hc
        exact hnd2.1 (hc ▸ List.mem_map_of_mem key h2)
      rw [List.filter_cons, if_neg (by simp [hne])]
      exact ih x hnd2.2 h2

theorem mkSummary_support_id (n : Nat) (k : String) (g : List MergedRecord) :
    (mkSummary n k g).support_id = k := by
  cases g <;> rfl

theorem read_variant_table_full_ok (t : RawTable)
    (hend : t.hasEnd = true) (hst : t.hasSvtype = true) (hsl : t.hasSvlen = true)
    (hsvlen : ∀ v ∈ t.rows, 0 ≤ v.svlen)
    (hids : (t.rows.map (fun v => v.id)).Nodup) :
    read_variant_table false false false t
      = Except.ok (List.insertionSort rvLe t.rows) := by
  have hdef : set_missing_defaults t = Except.ok t := by
    unfold set_missing_defaults
    dsimp only
    rw [if_pos hsl]
    dsimp only
    rw [if_pos hst]
  unfold read_variant_table
  rw [hdef]
  dsimp only
  rw [if_neg (by simp)]
  have hneg : (t.rows.any fun r => r.svlen < 0) = false := by
    rw [List.any_eq_false]
    intro r hr
    simpa using hsvlen r hr
  rw [if_neg (by simp [hneg])]
  have hperm : List.Perm ((List.insertionSort rvLe t.rows).map (fun r => r.id))
      (t.rows.map (fun r => r.id)) :=
    (List.perm_insertionSort rvLe t.rows).map _
  have hnd : ((List.insertionSort rvLe t.rows).map (fun r => r.id)).Nodup :=
    (hperm.nodup_iff).mpr hids
  have hdl : dupList ((List.insertionSort rvLe t.rows).map (fun r => r.id)) = [] :=
    (dupList_eq_nil_iff _).mpr hnd
  rw [if_neg (by simp [hdl])]

theorem joinSample_singletons (rows : List VRow) : ∀ (ss : List SummaryRow),
    (∀ s ∈ ss, ∃ v, rows.filter (fun u => u.id = s.merge_src_id) = [v]) →
    ∃ out, joinSample rows ss = Except.ok out
      ∧ out.length = ss.length
      ∧ out.map (fun r => r.id) = ss.map (fun s => s.support_id)
      ∧ (∀ s ∈ ss, ∀ v, rows.filter (fun u => u.id = s.merge_src_id) = [v] →
          mkOutRow s v ∈ out) := by
  intro ss
  induction ss with
  | nil =>
    intro _
    exact ⟨[], rfl, rfl, rfl, by intro s hs; simp at hs⟩
  | cons s ss ih =>
    intro hall
    obtain ⟨v, hv⟩ := hall s (List.mem_cons_self _ _)
    obtain ⟨out0, hout0, hlen0, hmap0, hmem0⟩ :=
      ih (fun u hu => hall u (List.mem_cons_of_mem _ hu))
    refine ⟨mkOutRow s v :: out0, ?_, ?_, ?_, ?_⟩
    · unfold joinSample
      rw [hv]
      dsimp only
      rw [hout0]
      rfl
    · simp [hlen0]
    · simp only [List.map_cons, hmap0]
      rfl
    · intro u hu w hw
      rcases List.mem_cons.mp hu with h1 | h2
      · subst h1
        rw [hv] at hw
        simp only [List.cons.injEq] at hw
        rw [hw.1]
        exact List.mem_cons_self _ _
      · exact List.mem_cons_of_mem _ (hmem0 u h2 w hw)


theorem map_support_id_mkSummary (n : Nat) (f : String → List MergedRecord) :
    ∀ ks : List String,
      (ks.map (fun k => mkSummary n k (f k))).map (fun s => s.support_id) = ks := by
  intro ks
  induction ks with
  | nil => rfl
  | cons k ks ih =>
    simp only [List.map_cons, mkSummary_support_id, ih]

set_option maxHeartbeats 1600000 in
theorem single_sample_support (sname : String) (origRows : List VRow)
    (dfr : List MergedRecord)
    (hids : (origRows.map (fun v => v.id)).Nodup)
    (hsup : (dfr.map (fun r => r.support_id)).Nodup)
    (hform : ∀ m ∈ dfr, ∃ v ∈ origRows, m = normalizeSupport (mkLead sname v))
    (hcover : ∀ v ∈ origRows, normalizeSupport (mkLead sname v) ∈ dfr) :
    ∃ out, merge_sample_by_support
        ((List.insertionSort (fun a b : String => a ≤ b)
            (dfr.map (fun r => r.support_id))).map
          (fun k => mkSummary 1 k (dfr.filter (fun r => r.support_id = k))))
        [(sname, origRows)] = Except.ok out
      ∧ out.length = dfr.length
      ∧ (out.map (fun r => r.id)).Nodup
      ∧ ∀ v ∈ origRows, ∃ r ∈ out,
          r.chrom = v.chrom ∧ r.pos = v.pos ∧ r.endPos = v.endPos ∧ r.id = v.id
          ∧ r.merge_src = sname ∧ r.merge_src_id = v.id
          ∧ r.merge_ac = 1 ∧ r.merge_af = 1
          ∧ r.merge_samples = sname ∧ r.merge_variants = v.id
          ∧ r.merge_offset = "0" ∧ r.merge_ro = "1.00" ∧ r.merge_szro = "1.00"
          ∧ r.merge_offsz = "1.00" ∧ r.merge_match = "1.00" := by
  set ks := List.insertionSort (fun a b : String => a ≤ b)
    (dfr.map (fun r => r.support_id)) with hks
  set summaries := ks.map
    (fun k => mkSummary 1 k (dfr.filter (fun r => r.support_id = k))) with hsumm
  have hpermk : List.Perm ks (dfr.map (fun r => r.support_id)) := by
    rw [hks]
    exact List.perm_insertionSort _ _
  have hnodupks : ks.Nodup := (hpermk.nodup_iff).mpr hsup
  have hgrp : ∀ k ∈ ks, ∃ m ∈ dfr, m.support_id = k
      ∧ dfr.filter (fun r => r.support_id = k) = [m] := by
    intro k hk
    have hk2 : k ∈ dfr.map (fun r => r.support_id) := hpermk.mem_iff.mp hk
    obtain ⟨m, hm, hmk⟩ := List.mem_map.mp hk2
    refine ⟨m, hm, hmk, ?_⟩
    rw [← hmk]
    exact filter_key_singleton (fun r => r.support_id) dfr m hsup hm
  have hsumids : summaries.map (fun s => s.support_id) = ks := by
    rw [hsumm]
    exact map_support_id_mkSummary 1 _ ks
  have hdup : dupList (summaries.map (fun s => s.support_id)) = [] := by
    rw [hsumids]
    exact (dupList_eq_nil_iff _).mpr hnodupks
  have hfiltall : summaries.filter (fun s => s.merge_src = sname) = summaries := by
    rw [List.filter_eq_self]
    intro s hs
    obtain ⟨k, hk, hks2⟩ := List.mem_map.mp hs
    subst hks2
    obtain ⟨m, hm, hmk, hflt⟩ := hgrp k hk
    obtain ⟨v, _, hmv⟩ := hform m hm
    rw [hflt, hmv]
    exact decide_eq_true rfl
  have hjoinhyp : ∀ s ∈ summaries, ∃ v,
      origRows.filter (fun u => u.id = s.merge_src_id) = [v] := by
    intro s hs
    obtain ⟨k, hk, hks2⟩ := List.mem_map.mp hs
    subst hks2
    obtain ⟨m, hm, hmk, hflt⟩ := hgrp k hk
    obtain ⟨v, hv, hmv⟩ := hform m hm
    refine ⟨v, ?_⟩
    have hsrc : (mkSummary 1 k (dfr.filter (fun r => r.support_id = k))).merge_src_id
        = v.id := by
      rw [hflt, hmv]
      rfl
    rw [hsrc]
    exact filter_key_singleton (fun u => u.id) origRows v hids hv
  obtain ⟨out0, hout0, hlen0, hmap0, hmem0⟩ :=
    joinSample_singletons origRows summaries hjoinhyp
  have hms : merge_sample_by_support summaries [(sname, origRows)]
      = Except.ok (List.insertionSort outLe out0) := by
    unfold merge_sample_by_support
    dsimp only
    rw [if_neg (by simp [hdup])]
    unfold buildMerged
    rw [hfiltall, hout0]
    dsimp only
    have hnil : buildMerged summaries [] = Except.ok ([] : List OutRow) := rfl
    rw [hnil]
    dsimp only
    rw [List.append_nil]
  have hpermout : List.Perm (List.insertionSort outLe out0) out0 :=
    List.perm_insertionSort _ _
  refine ⟨List.insertionSort outLe out0, hms, ?_, ?_, ?_⟩
  · rw [hpermout.length_eq, hlen0, hsumm, List.length_map, hpermk.length_eq,
        List.length_map]
  · refine ((hpermout.map (fun r => r.id)).nodup_iff).mpr ?_
    rw [hmap0, hsumids]
    exact hnodupks
  · intro v hv
    have hm : normalizeSupport (mkLead sname v) ∈ dfr := hcover v hv
    have hk : (normalizeSupport (mkLead sname v)).support_id ∈ ks :=
      hpermk.mem_iff.mpr (List.mem_map_of_mem _ hm)
    have hflt : dfr.filter
          (fun r => r.support_id = (normalizeSupport (mkLead sname v)).support_id)
        = [normalizeSupport (mkLead sname v)] :=
      filter_key_singleton (fun r => r.support_id) dfr _ hsup hm
    have hs'mem : mkSummary 1 ((normalizeSupport (mkLead sname v)).support_id)
        (dfr.filter
          (fun r => r.support_id = (normalizeSupport (mkLead sname v)).support_id))
        ∈ summaries := by
      rw [hsumm]
      exact List.mem_map_of_mem _ hk
    have hsrc : (mkSummary 1 ((normalizeSupport (mkLead sname v)).support_id)
        (dfr.filter
          (fun r => r.support_id = (normalizeSupport (mkLead sname v)).support_id))).merge_src_id
        = v.id := by
      rw [hflt]
      rfl
    have hfv : origRows.filter (fun u => u.id
          = (mkSummary 1 ((normalizeSupport (mkLead sname v)).support_id)
            (dfr.filter (fun r => r.support_id
              = (normalizeSupport (mkLead sname v)).support_id))).merge_src_id)
        = [v] := by
      rw [hsrc]
      exact filter_key_singleton (fun u => u.id) origRows v hids hv
    have hrmem := hmem0 _ hs'mem v hfv
    have hsame : mkOutRow (mkSummary 1 ((normalizeSupport (mkLead sname v)).support_id)
          (dfr.filter (fun r => r.support_id
            = (normalizeSupport (mkLead sname v)).support_id))) v
        = mkOutRow (mkSummary 1 ((normalizeSupport (mkLead sname v)).support_id)
          [normalizeSupport (mkLead sname v)]) v := by
      rw [hflt]
    refine ⟨mkOutRow (mkSummary 1 ((normalizeSupport (mkLead sname v)).support_id)
        [normalizeSupport (mkLead sname v)]) v,
      hpermout.mem_iff.mpr (hsame ▸ hrmem),
      rfl, rfl, rfl, rfl, rfl, rfl, rfl, ?_, rfl, rfl, ?_, ?_, ?_, ?_, ?_⟩
    · show (pyParseFloat (fmtFixed 4 (((1 : Nat) : ℚ) / ((1 : Nat) : ℚ)))).getD 0 = 1
      with_unfolding_all rfl
    · show commaJoin [fmtFixed 0 (max 0 (-1 : ℚ))] = "0"
      with_unfolding_all rfl
    · show commaJoin [fmtFixed 2 |(-1 : ℚ)|] = "1.00"
      with_unfolding_all rfl
    · show commaJoin [fmtFixed 2 |(-1 : ℚ)|] = "1.00"
      with_unfolding_all rfl
    · show commaJoin [fmtFixed 2 |(-1 : ℚ)|] = "1.00"
      with_unfolding_all rfl
    · show commaJoin [fmtMatch 2 ((some (-1 : ℚ)).map (fun q => |q|))] = "1.00"
      with_unfolding_all rfl

theorem single_sample_core (sname : String) (rows origRows : List VRow)
    (hperm : List.Perm rows origRows)
    (hids : (origRows.map (fun v => v.id)).Nodup) :
    ∃ out,
      merge_sample_by_support
          (finalize_merged [sname] 1 (rows.map (mkLead sname))) [(sname, origRows)]
        = Except.ok out
      ∧ out.length = origRows.length
      ∧ (out.map (fun r => r.id)).Nodup
      ∧ ∀ v ∈ origRows, ∃ r ∈ out,
          r.chrom = v.chrom ∧ r.pos = v.pos ∧ r.endPos = v.endPos ∧ r.id = v.id
          ∧ r.merge_src = sname ∧ r.merge_src_id = v.id
          ∧ r.merge_ac = 1 ∧ r.merge_af = 1
          ∧ r.merge_samples = sname ∧ r.merge_variants = v.id
          ∧ r.merge_offset = "0" ∧ r.merge_ro = "1.00" ∧ r.merge_szro = "1.00"
          ∧ r.merge_offsz = "1.00" ∧ r.merge_match = "1.00" := by
  have hidsr : (rows.map (fun v => v.id)).Nodup := ((hperm.map _).nodup_iff).mpr hids
  by_cases hemp : rows = []
  · have horig : origRows = [] := by
      have hl := hperm.length_eq
      rw [hemp] at hl
      exact List.length_eq_zero.mp hl.symm
    subst hemp
    refine ⟨[], by rw [horig]; rfl, by simp [horig], by simp, ?_⟩
    intro v hv
    rw [horig] at hv
    simp at hv
  have hdfne : ¬ rows.map (mkLead sname) = [] := by
    intro h
    exact hemp (List.map_eq_nil.mp h)
  have hmapnorm : (rows.map (mkLead sname)).map normalizeSupport
      = rows.map (fun v => normalizeSupport (mkLead sname v)) := by
    rw [List.map_map]
    rfl
  have hsortid : finalSort [sname] (rows.map (fun v => normalizeSupport (mkLead sname v)))
      = rows.map (fun v => normalizeSupport (mkLead sname v)) := by
    apply insertionSort_all_le
    intro a ha b hb
    obtain ⟨va, _, hva⟩ := List.mem_map.mp ha
    obtain ⟨vb, _, hvb⟩ := List.mem_map.mp hb
    subst hva hvb
    show finKey [sname] (normalizeSupport (mkLead sname va))
      ≤ finKey [sname] (normalizeSupport (mkLead sname vb))
    exact le_of_eq rfl
  have htripnodup :
      ((rows.map (fun v => normalizeSupport (mkLead sname v))).map trip).Nodup := by
    have heq : (rows.map (fun v => normalizeSupport (mkLead sname v))).map trip
        = (rows.map (fun v => v.id)).map (fun i => (i, sname, sname)) := by
      rw [List.map_map, List.map_map]
      rfl
    rw [heq]
    exact List.Nodup.map (fun a b h => congrArg Prod.fst h) hidsr
  have hdedup : dropDupFirst trip (rows.map (fun v => normalizeSupport (mkLead sname v))) []
      = rows.map (fun v => normalizeSupport (mkLead sname v)) :=
    dropDupFirst_of_nodup trip _ [] htripnodup (by simp)
  have hpermr : List.Perm
      (List.insertionSort (idSortLe [sname])
        (rows.map (fun v => normalizeSupport (mkLead sname v))))
      (rows.map (fun v => normalizeSupport (mkLead sname v))) :=
    List.perm_insertionSort _ _
  have hsupmap : (rows.map (fun v => normalizeSupport (mkLead sname v))).map
      (fun r => r.support_id) = rows.map (fun v => v.id) := by
    rw [List.map_map]
    rfl
  have hsupnodup :
      ((List.insertionSort (idSortLe [sname])
        (rows.map (fun v => normalizeSupport (mkLead sname v)))).map
          (fun r => r.support_id)).Nodup := by
    refine ((hpermr.map (fun r => r.support_id)).nodup_iff).mpr ?_
    rw [hsupmap]
    exact hidsr
  have hfin : finalize_merged [sname] 1 (rows.map (mkLead sname))
      = (List.insertionSort (fun a b : String => a ≤ b)
          ((List.insertionSort (idSortLe [sname])
            (rows.map (fun v => normalizeSupport (mkLead sname v)))).map
            (fun r => r.support_id))).map
          (fun k => mkSummary 1 k
            ((List.insertionSort (idSortLe [sname])
              (rows.map (fun v => normalizeSupport (mkLead sname v)))).filter
              (fun r => r.support_id = k))) := by
    unfold finalize_merged
    rw [if_neg hdfne]
    dsimp only
    rw [hmapnorm, hsortid, hdedup,
        List.dedup_eq_self.mpr hsupnodup]
  have hform : ∀ m ∈ List.insertionSort (idSortLe [sname])
        (rows.map (fun v => normalizeSupport (mkLead sname v))),
      ∃ v ∈ origRows, m = normalizeSupport (mkLead sname v) := by
    intro m hm
    have hm2 := hpermr.mem_iff.mp hm
    obtain ⟨v, hv, hvm⟩ := List.mem_map.mp hm2
    exact ⟨v, hperm.mem_iff.mp hv, hvm.symm⟩
  have hcover : ∀ v ∈ origRows, normalizeSupport (mkLead sname v)
      ∈ List.insertionSort (idSortLe [sname])
        (rows.map (fun v => normalizeSupport (mkLead sname v))) := by
    intro v hv
    exact hpermr.mem_iff.mpr
      (List.mem_map_of_mem _ (hperm.mem_iff.mpr hv))
  obtain ⟨out, hout, hlen, hnd, hall⟩ :=
    single_sample_support sname origRows
      (List.insertionSort (idSortLe [sname])
        (rows.map (fun v => normalizeSupport (mkLead sname v))))
      hids hsupnodup hform hcover
  refine ⟨out, ?_, ?_, hnd, hall⟩
  · rw [hfin]
    exact hout
  · rw [hlen, hpermr.length_eq, List.length_map, hperm.length_eq]

/-- Claim C1: with successfully parsed merge parameters that request no
REF/ALT/SEQ comparison, a well-formed sample name, a table carrying END,
SVTYPE and SVLEN with non-negative SVLEN and unique IDs, the single-sample
run of `merge_variants_nr` succeeds and returns exactly one output row per
input variant with unique IDs, where each variant keeps its #CHROM, POS, END
and ID, MERGE_SRC and MERGE_SAMPLES are the sample name, MERGE_SRC_ID and
MERGE_VARIANTS are the variant's own ID, MERGE_AC = 1, MERGE_AF = 1, and the
self-support sentinels render as MERGE_OFFSET "0" and MERGE_RO, MERGE_SZRO,
MERGE_OFFSZ, MERGE_MATCH "1.00". -/
theorem merge_variants_nr_single_sample (mp : String) (ps : ParamSet)
    (sampleName : String) (tab : RawTable)
    (hps : get_param_set (some mp) = Except.ok ps)
    (href : ps.match_ref = false) (halt : ps.match_alt = false)
    (hseq : ps.read_seq = false)
    (hname1 : pyStrip sampleName = sampleName)
    (hname2 : sampleName ≠ "")
    (hname3 : sampleName.data.any isPySpace = false)
    (hend : tab.hasEnd = true) (hsvt : tab.hasSvtype = true)
    (hsvl : tab.hasSvlen = true)
    (hids : (tab.rows.map (fun v => v.id)).Nodup)
    (hsvlen : ∀ v ∈ tab.rows, 0 ≤ v.svlen) :
    ∃ out, merge_variants_nr_single (some mp) sampleName tab = Except.ok out
      ∧ out.length = tab.rows.length
      ∧ (out.map (fun r => r.id)).Nodup
      ∧ ∀ v ∈ tab.rows, ∃ r ∈ out,
          r.chrom = v.chrom ∧ r.pos = v.pos ∧ r.endPos = v.endPos ∧ r.id = v.id
          ∧ r.merge_src = sampleName ∧ r.merge_src_id = v.id
          ∧ r.merge_ac = 1 ∧ r.merge_af = 1
          ∧ r.merge_samples = sampleName ∧ r.merge_variants = v.id
          ∧ r.merge_offset = "0" ∧ r.merge_ro = "1.00" ∧ r.merge_szro = "1.00"
          ∧ r.merge_offsz = "1.00" ∧ r.merge_match = "1.00" := by
  unfold merge_variants_nr_single
  dsimp only
  rw [hname1, if_neg hname2, if_neg (by simp [hname3]), hps]
  dsimp only
  rw [href, halt, hseq, read_variant_table_full_ok tab hend hsvt hsvl hsvlen hids]
  dsimp only
  exact single_sample_core sampleName (List.insertionSort rvLe tab.rows) tab.rows
    (List.perm_insertionSort _ _) hids

theorem merge_variants_nr_single_sample_witness :
    get_param_set (some "offset=0")
        = Except.ok (⟨none, none, some 0, false, false, false, false, none, none,
            false⟩ : ParamSet)
      ∧ pyStrip "S1" = "S1" ∧ "S1" ≠ "" ∧ "S1".data.any isPySpace = false
      ∧ ((([⟨"chr1", 10, 20, "v1", "DEL", 10⟩, ⟨"chr1", 30, 45, "v2", "DEL", 15⟩] :
            List VRow).map (fun v => v.id)).Nodup)
      ∧ (∀ v ∈ ([⟨"chr1", 10, 20, "v1", "DEL", 10⟩, ⟨"chr1", 30, 45, "v2", "DEL", 15⟩] :
            List VRow), 0 ≤ v.svlen)
      ∧ ∃ out, merge_variants_nr_single (some "offset=0") "S1"
            ⟨[⟨"chr1", 10, 20, "v1", "DEL", 10⟩, ⟨"chr1", 30, 45, "v2", "DEL", 15⟩],
              true, true, true⟩ = Except.ok out
          ∧ out.length = (RawTable.mk
              [⟨"chr1", 10, 20, "v1", "DEL", 10⟩, ⟨"chr1", 30, 45, "v2", "DEL", 15⟩]
              true true true).rows.length
          ∧ (out.map (fun r => r.id)).Nodup
          ∧ ∀ v ∈ (RawTable.mk
              [⟨"chr1", 10, 20, "v1", "DEL", 10⟩, ⟨"chr1", 30, 45, "v2", "DEL", 15⟩]
              true true true).rows, ∃ r ∈ out,
              r.chrom = v.chrom ∧ r.pos = v.pos ∧ r.endPos = v.endPos ∧ r.id = v.id
              ∧ r.merge_src = "S1" ∧ r.merge_src_id = v.id
              ∧ r.merge_ac = 1 ∧ r.merge_af = 1
              ∧ r.merge_samples = "S1" ∧ r.merge_variants = v.id
              ∧ r.merge_offset = "0" ∧ r.merge_ro = "1.00" ∧ r.merge_szro = "1.00"
              ∧ r.merge_offsz = "1.00" ∧ r.merge_match = "1.00" :=
  ⟨by with_unfolding_all rfl, by decide, by decide, by decide, by decide,
    by decide,
    merge_variants_nr_single_sample "offset=0"
      ⟨none, none, some 0, false, false, false, false, none, none, false⟩ "S1"
      ⟨[⟨"chr1", 10, 20, "v1", "DEL", 10⟩, ⟨"chr1", 30, 45, "v2", "DEL", 15⟩],
        true, true, true⟩
      (by with_unfolding_all rfl) rfl rfl rfl (by decide) (by decide) (by decide)
      rfl rfl rfl (by decide) (by decide)⟩
